import Mathlib

/-!
Client proxy manager (`client/proxy/proxy_manager.go`)

A shallow embedding of `proxy.Manager`.

* A Go `map[string]V` is a list of key/value pairs without repeated keys; the
  order of the list is the order in which a `range` loop happens to visit the
  entries, so a statement proved for every list holds for every iteration
  order.
* A `*Wrapper` is a pointer: two instances are the same instance iff their
  `ptr` agree.  `heapNext` is the allocation counter that hands out the
  pointer of the next `NewWrapper`.
* Every call the manager makes on a collaborator (an instance, a connection,
  the logger) and every write to `pm.proxies` is recorded, in program order,
  as an `Action`.
* The mutex `mu` and the context `ctx` carry no data that the modelled code
  reads; `clientCfg` is only passed through to `NewWrapper`.
-/

namespace Frp

/-! ## Go maps as association lists -/

/-- The read `v, ok := m[name]`: `none` stands for `ok = false`. -/
def mapGet {β : Type} (name : String) : List (String × β) → Option β
  | [] => none
  | (k, v) :: rest => if k = name then some v else mapGet name rest

/-- The statement `delete(m, name)`. -/
def mapDelete {β : Type} (name : String) (m : List (String × β)) : List (String × β) :=
  m.filter (fun e => decide (e.1 ≠ name))

/-- The assignment `m[name] = v`. -/
def mapSet {β : Type} (name : String) (v : β) (m : List (String × β)) : List (String × β) :=
  mapDelete name m ++ [(name, v)]

/-- The key list of a map, in iteration order. -/
def mapKeys {β : Type} (m : List (String × β)) : List String :=
  m.map Prod.fst

/-! ## Collaborators -/

/-- Go `error` values that the manager produces or passes on. -/
inductive GoError where
  /-- The value of `fmt.Errorf` with the formatted text. -/
  | errorf (text : String)
  /-- The sentinel `event.ErrPayloadType`. -/
  | ErrPayloadType
deriving DecidableEq, Repr

/-- Modelled from the spec: the runtime instance `Wrapper` (its declaration,
`proxy_wrapper.go`, is not part of the sources at hand).  The manager reads
only the field `Cfg`, the configuration snapshot the instance was built from;
`ptr` is the identity of the pointer. -/
structure Wrapper (Cfg : Type) where
  ptr : Nat
  Cfg : Cfg
deriving DecidableEq, Repr

/-- Modelled from the spec: `event.StartProxyPayload`, the start intent, which
carries the message in its field `NewProxyMsg`. -/
structure StartProxyPayload (Msg : Type) where
  NewProxyMsg : Msg
deriving DecidableEq, Repr

/-- Modelled from the spec: `event.CloseProxyPayload`, the stop intent, which
carries the message in its field `CloseProxyMsg`. -/
structure CloseProxyPayload (Msg : Type) where
  CloseProxyMsg : Msg
deriving DecidableEq, Repr

/-- The dynamic value of the parameter `payload interface{}` of `HandleEvent`.
A pointer payload may be the nil pointer of its type (`none`). -/
inductive Payload (Msg : Type) where
  /-- A value of dynamic type `*event.StartProxyPayload`. -/
  | startProxy (e : Option (StartProxyPayload Msg))
  /-- A value of dynamic type `*event.CloseProxyPayload`. -/
  | closeProxy (e : Option (CloseProxyPayload Msg))
  /-- A value of any other dynamic type, named by `dynType`. -/
  | other (dynType : String)
deriving DecidableEq, Repr

/-- The channel `sendCh`: the messages it holds, oldest first, its capacity and
whether it has been closed. -/
structure Chan (Msg : Type) where
  buf : List Msg
  cap : Nat
  closed : Bool
deriving DecidableEq, Repr

/-- What the statement `ch <- m` does. -/
inductive SendResult (Msg : Type) where
  /-- The message was taken; the channel afterwards. -/
  | sent (ch : Chan Msg)
  /-- The channel is closed: the send panics. -/
  | panics
  /-- The channel is open and has no room: the send does not complete. -/
  | blocks
deriving DecidableEq, Repr

/-- The statement `ch <- m`. -/
def Chan.send {Msg : Type} (ch : Chan Msg) (m : Msg) : SendResult Msg :=
  if ch.closed then SendResult.panics
  else if ch.buf.length < ch.cap then SendResult.sent { ch with buf := ch.buf ++ [m] }
  else SendResult.blocks

/-- How a call ends. -/
inductive Outcome (α : Type) where
  /-- The call returns `a`. -/
  | returned (a : α)
  /-- The call panics and the panic leaves the function. -/
  | panicked (info : String)
  /-- The call is parked on a channel operation. -/
  | blocked
deriving DecidableEq, Repr

/-- One step of the manager that is visible outside it, in program order. -/
inductive Action (Cfg : Type) where
  /-- The call `pxy.Stop()` on the instance `ptr`. -/
  | Stop (ptr : Nat)
  /-- The call `pxy.Start()` on the instance `ptr`. -/
  | Start (ptr : Nat)
  /-- The call `NewWrapper(ctx, cfg, clientCfg, pm.HandleEvent, serverUDPPort)`
  returning the instance `ptr`. -/
  | NewWrapper (ptr : Nat) (cfg : Cfg) (serverUDPPort : Int)
  /-- The statement `delete(pm.proxies, name)`. -/
  | delete (name : String)
  /-- The statement `pm.proxies[name] = pxy`. -/
  | register (name : String) (pxy : Wrapper Cfg)
  /-- The statement `pm.proxies = make(map[string]*Wrapper)`. -/
  | clear
  /-- The call `pxy.SetRunningStatus(remoteAddr, serverRespErr)`. -/
  | SetRunningStatus (ptr : Nat) (remoteAddr serverRespErr : String)
  /-- The call `pw.InWorkConn(workConn, m)`. -/
  | InWorkConn (ptr : Nat) (workConn : Nat) (m : Nat)
  /-- The call `workConn.Close()`. -/
  | connClose (workConn : Nat)
  /-- The call `pxy.GetStatus()`. -/
  | GetStatus (ptr : Nat)
  /-- The call `xl.Info(format, names)`. -/
  | Info (format : String) (names : List String)
deriving DecidableEq, Repr

/-! ## The manager -/

/-- The struct `Manager`. -/
structure Manager (Cfg Msg : Type) where
  sendCh : Chan Msg
  proxies : List (String × Wrapper Cfg)
  closed : Bool
  serverUDPPort : Int
  heapNext : Nat
deriving Repr

/-- `NewManager`; `heapNext` is the state of the allocator at that moment. -/
def NewManager {Cfg Msg : Type} (msgSendCh : Chan Msg) (serverUDPPort : Int)
    (heapNext : Nat) : Manager Cfg Msg :=
  { sendCh := msgSendCh
    proxies := []
    closed := false
    serverUDPPort := serverUDPPort
    heapNext := heapNext }

/-- `Manager.StartProxy`.  `SetRunningStatus` is the method of the instance,
given by what it returns. -/
def StartProxy {Cfg Msg : Type}
    (SetRunningStatus : Wrapper Cfg → String → String → Option GoError)
    (pm : Manager Cfg Msg) (name remoteAddr serverRespErr : String) :
    Manager Cfg Msg × Option GoError × List (Action Cfg) :=
  match mapGet name pm.proxies with
  | none => (pm, some (GoError.errorf ("proxy [" ++ name ++ "] not found")), [])
  | some pxy =>
    let err := SetRunningStatus pxy remoteAddr serverRespErr
    match err with
    | some e => (pm, some e, [Action.SetRunningStatus pxy.ptr remoteAddr serverRespErr])
    | none => (pm, none, [Action.SetRunningStatus pxy.ptr remoteAddr serverRespErr])

/-- `Manager.Close`. -/
def Close {Cfg Msg : Type} (pm : Manager Cfg Msg) : Manager Cfg Msg × List (Action Cfg) :=
  let acts := pm.proxies.foldl (fun acc e => acc ++ [Action.Stop e.2.ptr]) []
  ({ pm with proxies := [] }, acts ++ [Action.clear])

/-- `Manager.HandleWorkConn`. -/
def HandleWorkConn {Cfg Msg : Type} (pm : Manager Cfg Msg) (name : String)
    (workConn : Nat) (m : Nat) : Manager Cfg Msg × List (Action Cfg) :=
  match mapGet name pm.proxies with
  | some pw => (pm, [Action.InWorkConn pw.ptr workConn m])
  | none => (pm, [Action.connClose workConn])

/-- `errors.PanicToError` applied to the closure `func() { pm.sendCh <- m }`:
a panic of the send is recovered and returned as an error. -/
def sendRecovered {Cfg Msg : Type} (pm : Manager Cfg Msg) (m : Msg) :
    Manager Cfg Msg × Outcome (Option GoError) :=
  match pm.sendCh.send m with
  | SendResult.sent ch => ({ pm with sendCh := ch }, Outcome.returned none)
  | SendResult.panics =>
    (pm, Outcome.returned (some (GoError.errorf "Panic error: send on closed channel")))
  | SendResult.blocks => (pm, Outcome.blocked)

/-- `Manager.HandleEvent`. -/
def HandleEvent {Cfg Msg : Type} (pm : Manager Cfg Msg) (evType : Int)
    (payload : Payload Msg) : Manager Cfg Msg × Outcome (Option GoError) :=
  match payload with
  | Payload.startProxy (some e) => sendRecovered pm e.NewProxyMsg
  | Payload.startProxy none =>
    (pm, Outcome.panicked "runtime error: invalid memory address or nil pointer dereference")
  | Payload.closeProxy (some e) => sendRecovered pm e.CloseProxyMsg
  | Payload.closeProxy none =>
    (pm, Outcome.panicked "runtime error: invalid memory address or nil pointer dereference")
  | Payload.other _ => (pm, Outcome.returned (some GoError.ErrPayloadType))

/-- `Manager.GetAllProxyStatus`.  `GetStatus` is the method of the instance,
given by what it returns. -/
def GetAllProxyStatus {Cfg Msg St : Type} (GetStatus : Wrapper Cfg → St)
    (pm : Manager Cfg Msg) : List St × List (Action Cfg) :=
  pm.proxies.foldl
    (fun acc e => (acc.1 ++ [GetStatus e.2], acc.2 ++ [Action.GetStatus e.2.ptr]))
    ([], [])

/-- The variables of the first loop of `Reload`. -/
structure DelLoop (Cfg : Type) where
  proxies : List (String × Wrapper Cfg)
  delPxyNames : List String
  acts : List (Action Cfg)

/-- The body of `for name, pxy := range pm.proxies` in `Reload`. -/
def reloadDelBody {Cfg : Type} (Compare : Cfg → Cfg → Bool)
    (pxyCfgs : List (String × Cfg)) (st : DelLoop Cfg) (entry : String × Wrapper Cfg) :
    DelLoop Cfg :=
  let name := entry.1
  let pxy := entry.2
  let del :=
    match mapGet name pxyCfgs with
    | none => true
    | some cfg => if !(Compare pxy.Cfg cfg) then true else false
  if del then
    { proxies := mapDelete name st.proxies
      delPxyNames := st.delPxyNames ++ [name]
      acts := st.acts ++ [Action.delete name, Action.Stop pxy.ptr] }
  else st

/-- The variables of the second loop of `Reload`. -/
structure AddLoop (Cfg : Type) where
  proxies : List (String × Wrapper Cfg)
  addPxyNames : List String
  heapNext : Nat
  acts : List (Action Cfg)

/-- The body of `for name, cfg := range pxyCfgs` in `Reload`. -/
def reloadAddBody {Cfg : Type} (serverUDPPort : Int) (st : AddLoop Cfg)
    (entry : String × Cfg) : AddLoop Cfg :=
  let name := entry.1
  let cfg := entry.2
  match mapGet name st.proxies with
  | some _ => st
  | none =>
    let pxy : Wrapper Cfg := { ptr := st.heapNext, Cfg := cfg }
    { proxies := mapSet name pxy st.proxies
      addPxyNames := st.addPxyNames ++ [name]
      heapNext := st.heapNext + 1
      acts := st.acts ++
        [Action.NewWrapper pxy.ptr cfg serverUDPPort, Action.register name pxy,
          Action.Start pxy.ptr] }

/-- The statement `if len(names) > 0 { xl.Info(format, names) }`. -/
def infoIfAny {Cfg : Type} (format : String) (names : List String) : List (Action Cfg) :=
  if names.length > 0 then [Action.Info format names] else []

/-- `Manager.Reload`.  `Compare` is the method `ProxyConf.Compare` of the
configuration. -/
def Reload {Cfg Msg : Type} (Compare : Cfg → Cfg → Bool) (pm : Manager Cfg Msg)
    (pxyCfgs : List (String × Cfg)) : Manager Cfg Msg × List (Action Cfg) :=
  let l1 := pm.proxies.foldl (reloadDelBody Compare pxyCfgs)
    { proxies := pm.proxies, delPxyNames := [], acts := [] }
  let log1 : List (Action Cfg) := infoIfAny "proxy removed: %v" l1.delPxyNames
  let l2 := pxyCfgs.foldl (reloadAddBody pm.serverUDPPort)
    { proxies := l1.proxies, addPxyNames := [], heapNext := pm.heapNext, acts := [] }
  let log2 : List (Action Cfg) := infoIfAny "proxy added: %v" l2.addPxyNames
  ({ pm with proxies := l2.proxies, heapNext := l2.heapNext },
    l1.acts ++ log1 ++ l2.acts ++ log2)

/-! ## Reading a run -/

/-- The effect of one recorded step on the registry `pm.proxies`. -/
def applyAction {Cfg : Type} (reg : List (String × Wrapper Cfg)) :
    Action Cfg → List (String × Wrapper Cfg)
  | Action.delete name => mapDelete name reg
  | Action.register name pxy => mapSet name pxy reg
  | Action.clear => []
  | _ => reg

/-- The registry after the recorded steps `acts`, starting from `reg`. -/
def replay {Cfg : Type} (reg : List (String × Wrapper Cfg)) (acts : List (Action Cfg)) :
    List (String × Wrapper Cfg) :=
  acts.foldl applyAction reg

/-- The instances stopped by a run, in order. -/
def stoppedPtrs {Cfg : Type} (acts : List (Action Cfg)) : List Nat :=
  acts.filterMap (fun a => match a with | Action.Stop p => some p | _ => none)

/-- The instances started by a run, in order. -/
def startedPtrs {Cfg : Type} (acts : List (Action Cfg)) : List Nat :=
  acts.filterMap (fun a => match a with | Action.Start p => some p | _ => none)

/-- The names deleted from the registry by a run, in order. -/
def deletedNames {Cfg : Type} (acts : List (Action Cfg)) : List String :=
  acts.filterMap (fun a => match a with | Action.delete n => some n | _ => none)

/-- The registrations made by a run, in order. -/
def registered {Cfg : Type} (acts : List (Action Cfg)) : List (String × Wrapper Cfg) :=
  acts.filterMap (fun a => match a with | Action.register n w => some (n, w) | _ => none)

/-- The instances constructed by a run, in order. -/
def constructed {Cfg : Type} (acts : List (Action Cfg)) : List (Wrapper Cfg) :=
  acts.filterMap (fun a =>
    match a with | Action.NewWrapper p c _ => some { ptr := p, Cfg := c } | _ => none)

/-- An action that tears an instance down: `Stop` or `delete`. -/
def Action.isTeardown {Cfg : Type} : Action Cfg → Bool
  | Action.Stop _ => true
  | Action.delete _ => true
  | _ => false

/-- An action that brings an instance up: `NewWrapper`, the registration or
`Start`. -/
def Action.isCreation {Cfg : Type} : Action Cfg → Bool
  | Action.NewWrapper _ _ _ => true
  | Action.register _ _ => true
  | Action.Start _ => true
  | _ => false

/-- The entry `(name, pxy)` is marked for removal by `Reload`: its name is not
a key of `pxyCfgs`, or `pxy.Cfg.Compare` rejects the configuration found. -/
def marked {Cfg : Type} (Compare : Cfg → Cfg → Bool) (pxyCfgs : List (String × Cfg))
    (entry : String × Wrapper Cfg) : Bool :=
  match mapGet entry.1 pxyCfgs with
  | none => true
  | some cfg => !(Compare entry.2.Cfg cfg)

/-- Well-formed manager: the registry has no repeated key, no instance is
registered twice, and every registered instance has been allocated. -/
def Manager.WF {Cfg Msg : Type} (pm : Manager Cfg Msg) : Prop :=
  (mapKeys pm.proxies).Nodup ∧ (pm.proxies.map (fun e => e.2.ptr)).Nodup ∧
    ∀ e ∈ pm.proxies, e.2.ptr < pm.heapNext

instance {Cfg Msg : Type} (pm : Manager Cfg Msg) : Decidable pm.WF := by
  unfold Manager.WF
  infer_instance

/-- The entries of the registry that the first loop of `Reload` removes. -/
def removedEntries {Cfg : Type} (Compare : Cfg → Cfg → Bool) (pxyCfgs : List (String × Cfg))
    (reg : List (String × Wrapper Cfg)) : List (String × Wrapper Cfg) :=
  reg.filter (marked Compare pxyCfgs)

/-- The entries of the registry that the first loop of `Reload` keeps. -/
def keptEntries {Cfg : Type} (Compare : Cfg → Cfg → Bool) (pxyCfgs : List (String × Cfg))
    (reg : List (String × Wrapper Cfg)) : List (String × Wrapper Cfg) :=
  reg.filter (fun e => !(marked Compare pxyCfgs e))

/-- The entries of `pxyCfgs` whose name is not a key of the registry `reg`. -/
def missingEntries {Cfg : Type} (reg : List (String × Wrapper Cfg))
    (pxyCfgs : List (String × Cfg)) : List (String × Cfg) :=
  pxyCfgs.filter (fun e => (mapGet e.1 reg).isNone)

/-- The steps recorded for the removal of the entries `es`. -/
def teardownActs {Cfg : Type} (es : List (String × Wrapper Cfg)) : List (Action Cfg) :=
  es.flatMap (fun e => [Action.delete e.1, Action.Stop e.2.ptr])

/-- The registrations made for the configurations `es`, the first instance
being allocated at `next`. -/
def freshEntries {Cfg : Type} : Nat → List (String × Cfg) → List (String × Wrapper Cfg)
  | _, [] => []
  | next, e :: rest => (e.1, { ptr := next, Cfg := e.2 }) :: freshEntries (next + 1) rest

/-- The steps recorded for the creation of instances for the configurations
`es`, the first instance being allocated at `next`. -/
def creationActs {Cfg : Type} (serverUDPPort : Int) :
    Nat → List (String × Cfg) → List (Action Cfg)
  | _, [] => []
  | next, e :: rest =>
    [Action.NewWrapper next e.2 serverUDPPort,
      Action.register e.1 { ptr := next, Cfg := e.2 }, Action.Start next] ++
      creationActs serverUDPPort (next + 1) rest

/-- The manager after a sequence of `Reload` calls. -/
def reloadAll {Cfg Msg : Type} (Compare : Cfg → Cfg → Bool) (pm : Manager Cfg Msg)
    (calls : List (List (String × Cfg))) : Manager Cfg Msg :=
  calls.foldl (fun s d => (Reload Compare s d).1) pm

/-- The log records of a run, in order: the format and the names given to
each `xl.Info`. -/
def infoRecords {Cfg : Type} (acts : List (Action Cfg)) : List (String × List String) :=
  acts.filterMap (fun a => match a with | Action.Info f ns => some (f, ns) | _ => none)

/-- The step takes `name` out of the registry: `delete(pm.proxies, name)` or
the replacement of the whole map. -/
def Action.removes {Cfg : Type} (name : String) : Action Cfg → Bool
  | Action.delete n => decide (n = name)
  | Action.clear => true
  | _ => false

/-- The step is the call `Stop()` on the instance `ptr`. -/
def Action.isStopOf {Cfg : Type} (ptr : Nat) : Action Cfg → Bool
  | Action.Stop p => decide (p = ptr)
  | _ => false

/-- In the run `acts`, `Stop` is called on the instance `ptr` before the first
step that takes `name` out of the registry. -/
def stopBeforeRemoval {Cfg : Type} (acts : List (Action Cfg)) (name : String) (ptr : Nat) :
    Bool :=
  (acts.takeWhile (fun a => !(a.removes name))).any (Action.isStopOf ptr)

/-- One call on the manager.  The calls that consult an instance carry what
the instance answers at that moment. -/
inductive Call (Cfg Msg St : Type) where
  /-- The call `pm.Reload(pxyCfgs)`. -/
  | Reload (pxyCfgs : List (String × Cfg))
  /-- The call `pm.Close()`. -/
  | Close
  /-- The call `pm.StartProxy(name, remoteAddr, serverRespErr)`. -/
  | StartProxy (SetRunningStatus : Wrapper Cfg → String → String → Option GoError)
      (name remoteAddr serverRespErr : String)
  /-- The call `pm.HandleWorkConn(name, workConn, m)`. -/
  | HandleWorkConn (name : String) (workConn : Nat) (m : Nat)
  /-- The call `pm.HandleEvent(evType, payload)`. -/
  | HandleEvent (evType : Int) (payload : Payload Msg)
  /-- The call `pm.GetAllProxyStatus()`. -/
  | GetAllProxyStatus (GetStatus : Wrapper Cfg → St)

/-- The manager after one call and the steps the call records.  A call of
`HandleEvent` that panics or is parked leaves the manager as it was. -/
def Call.run {Cfg Msg St : Type} (Compare : Cfg → Cfg → Bool) (pm : Manager Cfg Msg) :
    Call Cfg Msg St → Manager Cfg Msg × List (Action Cfg)
  | Call.Reload pxyCfgs => Frp.Reload Compare pm pxyCfgs
  | Call.Close => Frp.Close pm
  | Call.StartProxy f name remoteAddr serverRespErr =>
    ((Frp.StartProxy f pm name remoteAddr serverRespErr).1,
      (Frp.StartProxy f pm name remoteAddr serverRespErr).2.2)
  | Call.HandleWorkConn name workConn m => Frp.HandleWorkConn pm name workConn m
  | Call.HandleEvent evType payload => ((Frp.HandleEvent pm evType payload).1, [])
  | Call.GetAllProxyStatus g => (pm, (Frp.GetAllProxyStatus g pm).2)

/-- The argument of a `Reload` call is a map: it has no repeated key. -/
def Call.desiredIsMap {Cfg Msg St : Type} : Call Cfg Msg St → Bool
  | Call.Reload pxyCfgs => decide (mapKeys pxyCfgs).Nodup
  | _ => true

/-- The manager after a sequence of calls, with all the steps recorded since
the start, oldest first. -/
def runCalls {Cfg Msg St : Type} (Compare : Cfg → Cfg → Bool)
    (start : Manager Cfg Msg × List (Action Cfg)) (calls : List (Call Cfg Msg St)) :
    Manager Cfg Msg × List (Action Cfg) :=
  calls.foldl (fun s c => ((c.run Compare s.1).1, s.2 ++ (c.run Compare s.1).2)) start

/-- What holds of a manager `s.1` and of the steps `s.2` recorded since it was
made: the manager is well formed; no instance was stopped twice; every stopped
instance has been allocated; no registered instance was stopped; every
registered instance and every stopped instance was constructed by the
manager. -/
def StopInvariant {Cfg Msg : Type} (s : Manager Cfg Msg × List (Action Cfg)) : Prop :=
  s.1.WF ∧ (stoppedPtrs s.2).Nodup ∧
    (∀ p ∈ stoppedPtrs s.2, p < s.1.heapNext) ∧
    (∀ e ∈ s.1.proxies, e.2.ptr ∉ stoppedPtrs s.2) ∧
    (∀ e ∈ s.1.proxies, e.2 ∈ constructed s.2) ∧
    (∀ p ∈ stoppedPtrs s.2, p ∈ (constructed s.2).map (fun w => w.ptr))

/-! ## Association lists -/

theorem mapGet_eq_none_iff {β : Type} (name : String) (m : List (String × β)) :
    mapGet name m = none ↔ name ∉ mapKeys m := by
  induction m with
  | nil => simp [mapGet, mapKeys]
  | cons e rest ih =>
    obtain ⟨k, v⟩ := e
    by_cases h : k = name
    · simp [mapGet, mapKeys, h]
    · have h2 : ¬ name = k := fun q => h q.symm
      simp only [mapKeys] at ih
      simp [mapGet, mapKeys, h, h2, ih]

theorem mapGet_isSome_iff {β : Type} (name : String) (m : List (String × β)) :
    (mapGet name m).isSome = true ↔ name ∈ mapKeys m := by
  rw [← not_iff_not, ← mapGet_eq_none_iff]
  cases mapGet name m <;> simp

theorem mem_of_mapGet {β : Type} {name : String} {v : β} {m : List (String × β)}
    (h : mapGet name m = some v) : (name, v) ∈ m := by
  induction m with
  | nil => simp [mapGet] at h
  | cons e rest ih =>
    obtain ⟨k, w⟩ := e
    by_cases hk : k = name
    · simp [mapGet, hk] at h
      simp [hk, h]
    · simp [mapGet, hk] at h
      exact List.mem_cons_of_mem _ (ih h)

theorem mapGet_of_mem {β : Type} {name : String} {v : β} {m : List (String × β)}
    (hm : (mapKeys m).Nodup) (h : (name, v) ∈ m) : mapGet name m = some v := by
  induction m with
  | nil => simp at h
  | cons e rest ih =>
    obtain ⟨k, w⟩ := e
    simp only [mapKeys, List.map_cons, List.nodup_cons] at hm
    rcases List.mem_cons.mp h with h1 | h1
    · injection h1 with h2 h3
      subst h2 h3
      simp [mapGet]
    · have hk : k ≠ name := by
        intro q
        subst q
        exact hm.1 (List.mem_map.mpr ⟨(k, v), h1, rfl⟩)
      simp only [mapGet, hk, if_false]
      exact ih hm.2 h1

theorem mem_mapKeys_of_mem {β : Type} {name : String} {v : β} {m : List (String × β)}
    (h : (name, v) ∈ m) : name ∈ mapKeys m :=
  List.mem_map.mpr ⟨(name, v), h, rfl⟩

theorem mapDelete_of_not_mem {β : Type} {name : String} {m : List (String × β)}
    (h : name ∉ mapKeys m) : mapDelete name m = m := by
  unfold mapDelete
  rw [List.filter_eq_self]
  intro a ha
  have : a.1 ≠ name := by
    intro q
    exact h (List.mem_map.mpr ⟨a, ha, q⟩)
  simpa using this

theorem mapGet_append {β : Type} (name : String) (m₁ m₂ : List (String × β)) :
    mapGet name (m₁ ++ m₂) =
      match mapGet name m₁ with
      | some v => some v
      | none => mapGet name m₂ := by
  induction m₁ with
  | nil => simp [mapGet]
  | cons e rest ih =>
    obtain ⟨k, w⟩ := e
    by_cases hk : k = name
    · simp [mapGet, hk]
    · simp [mapGet, hk, ih]

theorem nodup_mapKeys_mapDelete {β : Type} (name : String) {m : List (String × β)}
    (h : (mapKeys m).Nodup) : (mapKeys (mapDelete name m)).Nodup :=
  List.Nodup.sublist (List.Sublist.map _ (List.filter_sublist _)) h

theorem not_mem_mapKeys_mapDelete {β : Type} (name : String) (m : List (String × β)) :
    name ∉ mapKeys (mapDelete name m) := by
  intro h
  obtain ⟨e, he, hk⟩ := List.mem_map.mp h
  have := (List.mem_filter.mp he).2
  simp at this
  exact this hk

theorem nodup_mapKeys_mapSet {β : Type} (name : String) (v : β) {m : List (String × β)}
    (h : (mapKeys m).Nodup) : (mapKeys (mapSet name v m)).Nodup := by
  unfold mapSet
  simp only [mapKeys, List.map_append, List.map_cons, List.map_nil]
  rw [List.nodup_append]
  refine ⟨nodup_mapKeys_mapDelete name h, List.nodup_singleton _, ?_⟩
  intro a ha hb
  simp at hb
  subst hb
  exact not_mem_mapKeys_mapDelete a m ha

/-! ## The two loops of `Reload` in closed form -/

theorem reloadDelBody_eq {Cfg : Type} (Compare : Cfg → Cfg → Bool)
    (pxyCfgs : List (String × Cfg)) (st : DelLoop Cfg) (entry : String × Wrapper Cfg) :
    reloadDelBody Compare pxyCfgs st entry =
      if marked Compare pxyCfgs entry = true then
        { proxies := mapDelete entry.1 st.proxies
          delPxyNames := st.delPxyNames ++ [entry.1]
          acts := st.acts ++ [Action.delete entry.1, Action.Stop entry.2.ptr] }
      else st := by
  unfold reloadDelBody marked
  cases h : mapGet entry.1 pxyCfgs with
  | none => simp [h]
  | some cfg => cases hc : Compare entry.2.Cfg cfg <;> simp [h, hc]

theorem foldl_reloadDelBody {Cfg : Type} (Compare : Cfg → Cfg → Bool)
    (pxyCfgs : List (String × Cfg)) (l : List (String × Wrapper Cfg)) (st : DelLoop Cfg) :
    l.foldl (reloadDelBody Compare pxyCfgs) st =
      { proxies := st.proxies.filter
          (fun e => decide (e.1 ∉ mapKeys (removedEntries Compare pxyCfgs l)))
        delPxyNames := st.delPxyNames ++ mapKeys (removedEntries Compare pxyCfgs l)
        acts := st.acts ++ teardownActs (removedEntries Compare pxyCfgs l) } := by
  induction l generalizing st with
  | nil => simp [removedEntries, mapKeys, teardownActs]
  | cons e rest ih =>
    rw [List.foldl_cons, ih, reloadDelBody_eq]
    by_cases hm : marked Compare pxyCfgs e = true
    · simp only [hm, if_true, removedEntries, List.filter_cons_of_pos, mapKeys, List.map_cons,
        teardownActs, List.flatMap_cons, mapDelete, List.filter_filter, List.append_assoc,
        List.singleton_append, List.cons_append, List.nil_append]
      congr 1
      apply List.filter_congr
      intro x _
      by_cases hx : x.1 = e.1 <;> simp [hx]
    · simp [hm, removedEntries]

theorem filter_not_mem_removed {Cfg : Type} (Compare : Cfg → Cfg → Bool)
    (pxyCfgs : List (String × Cfg)) (reg : List (String × Wrapper Cfg))
    (hreg : (mapKeys reg).Nodup) :
    reg.filter (fun e => decide (e.1 ∉ mapKeys (removedEntries Compare pxyCfgs reg))) =
      keptEntries Compare pxyCfgs reg := by
  unfold keptEntries
  apply List.filter_congr
  intro x hx
  by_cases hm : marked Compare pxyCfgs x = true
  · have : x.1 ∈ mapKeys (removedEntries Compare pxyCfgs reg) :=
      List.mem_map.mpr ⟨x, List.mem_filter.mpr ⟨hx, hm⟩, rfl⟩
    simp [this, hm]
  · have : x.1 ∉ mapKeys (removedEntries Compare pxyCfgs reg) := by
      intro h
      obtain ⟨y, hy, hk⟩ := List.mem_map.mp h
      have hy2 := List.mem_filter.mp hy
      have hxy : y = x := List.inj_on_of_nodup_map hreg hy2.1 hx hk
      rw [hxy] at hy2
      exact hm hy2.2
    simp [this, hm]

theorem mapSet_of_mapGet_none {β : Type} {name : String} (v : β) {m : List (String × β)}
    (h : mapGet name m = none) : mapSet name v m = m ++ [(name, v)] := by
  unfold mapSet
  rw [mapDelete_of_not_mem ((mapGet_eq_none_iff name m).mp h)]

theorem missingEntries_snoc {Cfg : Type} (reg : List (String × Wrapper Cfg))
    (name : String) (w : Wrapper Cfg) (l : List (String × Cfg)) (h : name ∉ mapKeys l) :
    missingEntries (reg ++ [(name, w)]) l = missingEntries reg l := by
  unfold missingEntries
  apply List.filter_congr
  intro x hx
  have hne : name ≠ x.1 := by
    intro q
    exact h (List.mem_map.mpr ⟨x, hx, q.symm⟩)
  rw [mapGet_append]
  cases mapGet x.1 reg <;> simp [mapGet, hne]

theorem reloadAddBody_of_some {Cfg : Type} (serverUDPPort : Int) (st : AddLoop Cfg)
    (entry : String × Cfg) (w : Wrapper Cfg) (h : mapGet entry.1 st.proxies = some w) :
    reloadAddBody serverUDPPort st entry = st := by
  unfold reloadAddBody
  simp [h]

theorem reloadAddBody_of_none {Cfg : Type} (serverUDPPort : Int) (st : AddLoop Cfg)
    (entry : String × Cfg) (h : mapGet entry.1 st.proxies = none) :
    reloadAddBody serverUDPPort st entry =
      { proxies := st.proxies ++ [(entry.1, { ptr := st.heapNext, Cfg := entry.2 })]
        addPxyNames := st.addPxyNames ++ [entry.1]
        heapNext := st.heapNext + 1
        acts := st.acts ++
          [Action.NewWrapper st.heapNext entry.2 serverUDPPort,
            Action.register entry.1 { ptr := st.heapNext, Cfg := entry.2 },
            Action.Start st.heapNext] } := by
  unfold reloadAddBody
  simp [h, mapSet_of_mapGet_none _ h]

theorem foldl_reloadAddBody {Cfg : Type} (serverUDPPort : Int) (l : List (String × Cfg))
    (hl : (mapKeys l).Nodup) (st : AddLoop Cfg) :
    l.foldl (reloadAddBody serverUDPPort) st =
      { proxies := st.proxies ++ freshEntries st.heapNext (missingEntries st.proxies l)
        addPxyNames := st.addPxyNames ++ mapKeys (missingEntries st.proxies l)
        heapNext := st.heapNext + (missingEntries st.proxies l).length
        acts := st.acts ++
          creationActs serverUDPPort st.heapNext (missingEntries st.proxies l) } := by
  induction l generalizing st with
  | nil => simp [missingEntries, freshEntries, mapKeys, creationActs]
  | cons e rest ih =>
    simp only [mapKeys, List.map_cons, List.nodup_cons] at hl
    rw [List.foldl_cons]
    cases hg : mapGet e.1 st.proxies with
    | some w =>
      have h1 : missingEntries st.proxies (e :: rest) = missingEntries st.proxies rest := by
        simp [missingEntries, hg]
      rw [reloadAddBody_of_some _ _ _ w hg, ih hl.2, h1]
    | none =>
      have h1 : missingEntries st.proxies (e :: rest) = e :: missingEntries st.proxies rest := by
        simp [missingEntries, hg]
      rw [reloadAddBody_of_none _ _ _ hg, ih hl.2, h1]
      simp only [missingEntries_snoc _ _ _ _ hl.1,
        freshEntries, creationActs, mapKeys, List.map_cons, List.length_cons,
        List.append_assoc, List.singleton_append, List.cons_append, List.nil_append]
      congr 1
      omega

/-- `Reload` in closed form, for a registry and a desired set that are maps. -/
theorem Reload_eq {Cfg Msg : Type} (Compare : Cfg → Cfg → Bool) (pm : Manager Cfg Msg)
    (pxyCfgs : List (String × Cfg)) (hreg : (mapKeys pm.proxies).Nodup)
    (hcfg : (mapKeys pxyCfgs).Nodup) :
    Reload Compare pm pxyCfgs =
      ({ pm with
          proxies := keptEntries Compare pxyCfgs pm.proxies ++
            freshEntries pm.heapNext
              (missingEntries (keptEntries Compare pxyCfgs pm.proxies) pxyCfgs)
          heapNext := pm.heapNext +
            (missingEntries (keptEntries Compare pxyCfgs pm.proxies) pxyCfgs).length },
        teardownActs (removedEntries Compare pxyCfgs pm.proxies) ++
          infoIfAny "proxy removed: %v" (mapKeys (removedEntries Compare pxyCfgs pm.proxies)) ++
          creationActs pm.serverUDPPort pm.heapNext
            (missingEntries (keptEntries Compare pxyCfgs pm.proxies) pxyCfgs) ++
          infoIfAny "proxy added: %v"
            (mapKeys (missingEntries (keptEntries Compare pxyCfgs pm.proxies) pxyCfgs))) := by
  unfold Reload
  simp only [foldl_reloadDelBody, foldl_reloadAddBody _ _ hcfg,
    filter_not_mem_removed _ _ _ hreg, List.nil_append]

/-! ## The registry after `Reload` -/

theorem marked_eq_false_iff {Cfg : Type} (Compare : Cfg → Cfg → Bool)
    (pxyCfgs : List (String × Cfg)) (entry : String × Wrapper Cfg) :
    marked Compare pxyCfgs entry = false ↔
      ∃ cfg, mapGet entry.1 pxyCfgs = some cfg ∧ Compare entry.2.Cfg cfg = true := by
  unfold marked
  cases h : mapGet entry.1 pxyCfgs <;> simp

theorem mem_keptEntries {Cfg : Type} (Compare : Cfg → Cfg → Bool)
    (pxyCfgs : List (String × Cfg)) (reg : List (String × Wrapper Cfg))
    (entry : String × Wrapper Cfg) :
    entry ∈ keptEntries Compare pxyCfgs reg ↔
      entry ∈ reg ∧ marked Compare pxyCfgs entry = false := by
  simp [keptEntries, List.mem_filter]

theorem mem_missingEntries {Cfg : Type} (reg : List (String × Wrapper Cfg))
    (pxyCfgs : List (String × Cfg)) (entry : String × Cfg) :
    entry ∈ missingEntries reg pxyCfgs ↔ entry ∈ pxyCfgs ∧ entry.1 ∉ mapKeys reg := by
  simp only [missingEntries, List.mem_filter, Option.isNone_iff_eq_none, mapGet_eq_none_iff]

theorem mapKeys_freshEntries {Cfg : Type} (next : Nat) (es : List (String × Cfg)) :
    mapKeys (freshEntries next es) = mapKeys es := by
  induction es generalizing next with
  | nil => rfl
  | cons e rest ih =>
    simp only [mapKeys] at ih
    simp [freshEntries, mapKeys, ih]

theorem ptrs_freshEntries {Cfg : Type} (next : Nat) (es : List (String × Cfg)) :
    (freshEntries next es).map (fun e => e.2.ptr) = List.range' next es.length := by
  induction es generalizing next with
  | nil => rfl
  | cons e rest ih => simp [freshEntries, ih, List.range'_succ]

theorem mem_freshEntries {Cfg : Type} {next : Nat} {es : List (String × Cfg)}
    {entry : String × Wrapper Cfg} (h : entry ∈ freshEntries next es) :
    (entry.1, entry.2.Cfg) ∈ es ∧ next ≤ entry.2.ptr ∧ entry.2.ptr < next + es.length := by
  induction es generalizing next with
  | nil => simp [freshEntries] at h
  | cons e rest ih =>
    simp only [freshEntries, List.mem_cons] at h
    rcases h with h | h
    · subst h
      simp
    · have := ih h
      refine ⟨List.mem_cons_of_mem _ this.1, by omega, ?_⟩
      simp only [List.length_cons]
      omega

theorem freshEntries_append {Cfg : Type} (next : Nat) (es fs : List (String × Cfg)) :
    freshEntries next (es ++ fs) =
      freshEntries next es ++ freshEntries (next + es.length) fs := by
  induction es generalizing next with
  | nil => simp [freshEntries]
  | cons e rest ih =>
    have hn : next + (rest.length + 1) = next + 1 + rest.length := by omega
    simp only [List.cons_append, freshEntries, List.length_cons, hn]
    exact congrArg _ (ih (next + 1))

theorem nodup_mapKeys_keptEntries {Cfg : Type} (Compare : Cfg → Cfg → Bool)
    (pxyCfgs : List (String × Cfg)) {reg : List (String × Wrapper Cfg)}
    (h : (mapKeys reg).Nodup) : (mapKeys (keptEntries Compare pxyCfgs reg)).Nodup :=
  List.Nodup.sublist (List.Sublist.map _ (List.filter_sublist _)) h

theorem nodup_mapKeys_missingEntries {Cfg : Type} (reg : List (String × Wrapper Cfg))
    {pxyCfgs : List (String × Cfg)} (h : (mapKeys pxyCfgs).Nodup) :
    (mapKeys (missingEntries reg pxyCfgs)).Nodup :=
  List.Nodup.sublist (List.Sublist.map _ (List.filter_sublist _)) h

/-- The registry that `Reload` leaves has no repeated key. -/
theorem nodup_mapKeys_Reload {Cfg Msg : Type} (Compare : Cfg → Cfg → Bool)
    (pm : Manager Cfg Msg) (pxyCfgs : List (String × Cfg))
    (hreg : (mapKeys pm.proxies).Nodup) (hcfg : (mapKeys pxyCfgs).Nodup) :
    (mapKeys (Reload Compare pm pxyCfgs).1.proxies).Nodup := by
  rw [Reload_eq Compare pm pxyCfgs hreg hcfg]
  simp only [mapKeys, List.map_append]
  rw [List.nodup_append]
  refine ⟨nodup_mapKeys_keptEntries Compare pxyCfgs hreg, ?_, ?_⟩
  · have := mapKeys_freshEntries pm.heapNext
      (missingEntries (keptEntries Compare pxyCfgs pm.proxies) pxyCfgs)
    simp only [mapKeys] at this
    rw [this]
    exact nodup_mapKeys_missingEntries _ hcfg
  · intro a ha hb
    have h2 := mapKeys_freshEntries pm.heapNext
      (missingEntries (keptEntries Compare pxyCfgs pm.proxies) pxyCfgs)
    simp only [mapKeys] at h2
    rw [h2] at hb
    obtain ⟨e, he, hk⟩ := List.mem_map.mp hb
    have := ((mem_missingEntries _ _ e).mp he).2
    rw [hk] at this
    exact this ha

/-- The keys of the registry that `Reload` leaves are the keys of the desired
set. -/
theorem mem_mapKeys_Reload {Cfg Msg : Type} (Compare : Cfg → Cfg → Bool)
    (pm : Manager Cfg Msg) (pxyCfgs : List (String × Cfg))
    (hreg : (mapKeys pm.proxies).Nodup) (hcfg : (mapKeys pxyCfgs).Nodup) (name : String) :
    name ∈ mapKeys (Reload Compare pm pxyCfgs).1.proxies ↔ name ∈ mapKeys pxyCfgs := by
  rw [Reload_eq Compare pm pxyCfgs hreg hcfg]
  have h2 := mapKeys_freshEntries pm.heapNext
    (missingEntries (keptEntries Compare pxyCfgs pm.proxies) pxyCfgs)
  simp only [mapKeys] at h2
  simp only [mapKeys, List.map_append, List.mem_append, h2]
  constructor
  · rintro (h | h)
    · obtain ⟨e, he, hk⟩ := List.mem_map.mp h
      obtain ⟨cfg, hc, _⟩ :=
        (marked_eq_false_iff Compare pxyCfgs e).mp ((mem_keptEntries _ _ _ e).mp he).2
      rw [hk] at hc
      exact mem_mapKeys_of_mem (mem_of_mapGet hc)
    · obtain ⟨e, he, hk⟩ := List.mem_map.mp h
      exact List.mem_map.mpr ⟨e, ((mem_missingEntries _ _ e).mp he).1, hk⟩
  · intro h
    by_cases hk : name ∈ mapKeys (keptEntries Compare pxyCfgs pm.proxies)
    · exact Or.inl hk
    · obtain ⟨e, he, hn⟩ := List.mem_map.mp h
      refine Or.inr (List.mem_map.mpr ⟨e, (mem_missingEntries _ _ e).mpr ⟨he, ?_⟩, hn⟩)
      rw [hn]
      exact hk

theorem nodup_mapKeys_reloadAll {Cfg Msg : Type} (Compare : Cfg → Cfg → Bool)
    (calls : List (List (String × Cfg))) (pm : Manager Cfg Msg)
    (hreg : (mapKeys pm.proxies).Nodup) (hcalls : ∀ d ∈ calls, (mapKeys d).Nodup) :
    (mapKeys (reloadAll Compare pm calls).proxies).Nodup := by
  induction calls generalizing pm with
  | nil => exact hreg
  | cons d rest ih =>
    simp only [reloadAll, List.foldl_cons]
    exact ih _ (nodup_mapKeys_Reload Compare pm d hreg (hcalls d (List.mem_cons_self _ _)))
      (fun x hx => hcalls x (List.mem_cons_of_mem _ hx))

theorem count_eq_of_nodup {l : List String} (hl : l.Nodup) (ks : List String)
    (h : ∀ name, name ∈ l ↔ name ∈ ks) (name : String) :
    l.count name = if name ∈ ks then 1 else 0 := by
  by_cases hk : name ∈ ks
  · rw [if_pos hk, List.count_eq_one_of_mem hl ((h name).mpr hk)]
  · rw [if_neg hk, List.count_eq_zero_of_not_mem (fun q => hk ((h name).mp q))]

/-- C1: after `Reload` with the desired set `pxyCfgs`, every key of `pxyCfgs`
is registered exactly once and no other name is registered; so after any
sequence of `Reload` calls on a new manager that ends with `pxyCfgs`, the
registered names are the keys of `pxyCfgs`, each once. -/
theorem Reload_registry_is_desired_set {Cfg Msg : Type} (Compare : Cfg → Cfg → Bool)
    (pm : Manager Cfg Msg) (pxyCfgs : List (String × Cfg))
    (hreg : (mapKeys pm.proxies).Nodup) (hcfg : (mapKeys pxyCfgs).Nodup) :
    (∀ name, (mapKeys (Reload Compare pm pxyCfgs).1.proxies).count name =
        if name ∈ mapKeys pxyCfgs then 1 else 0) ∧
      (∀ (msgSendCh : Chan Msg) (serverUDPPort : Int) (heapNext : Nat)
        (calls : List (List (String × Cfg))), (∀ d ∈ calls, (mapKeys d).Nodup) →
        ∀ name,
          (mapKeys (reloadAll Compare (NewManager msgSendCh serverUDPPort heapNext)
            (calls ++ [pxyCfgs])).proxies).count name =
            if name ∈ mapKeys pxyCfgs then 1 else 0) := by
  constructor
  · exact count_eq_of_nodup (nodup_mapKeys_Reload Compare pm pxyCfgs hreg hcfg) _
      (mem_mapKeys_Reload Compare pm pxyCfgs hreg hcfg)
  · intro msgSendCh serverUDPPort heapNext calls hcalls
    have hpre : (mapKeys (reloadAll Compare
        (NewManager msgSendCh serverUDPPort heapNext : Manager Cfg Msg) calls).proxies).Nodup :=
      nodup_mapKeys_reloadAll Compare calls _ (by simp [NewManager, mapKeys]) hcalls
    have hstep : reloadAll Compare (NewManager msgSendCh serverUDPPort heapNext) (calls ++ [pxyCfgs]) =
        (Reload Compare (reloadAll Compare
          (NewManager msgSendCh serverUDPPort heapNext : Manager Cfg Msg) calls) pxyCfgs).1 := by
      simp [reloadAll, List.foldl_append]
    rw [hstep]
    exact count_eq_of_nodup (nodup_mapKeys_Reload Compare _ pxyCfgs hpre hcfg) _
      (mem_mapKeys_Reload Compare _ pxyCfgs hpre hcfg)

/-- Witness of C1: `web` is replaced, `ssh` is dropped and `dns` is new. -/
theorem Reload_registry_is_desired_set_witness :
    (mapKeys (Reload (fun a b : Nat => a == b)
        ({ sendCh := ⟨[], 1, false⟩, proxies := [("web", ⟨0, 1⟩), ("ssh", ⟨1, 2⟩)],
           closed := false, serverUDPPort := 7001, heapNext := 2 } : Manager Nat Nat)
        [("web", 3), ("dns", 4)]).1.proxies).count "web" = 1 ∧
      (mapKeys (Reload (fun a b : Nat => a == b)
        ({ sendCh := ⟨[], 1, false⟩, proxies := [("web", ⟨0, 1⟩), ("ssh", ⟨1, 2⟩)],
           closed := false, serverUDPPort := 7001, heapNext := 2 } : Manager Nat Nat)
        [("web", 3), ("dns", 4)]).1.proxies).count "ssh" = 0 :=
  ⟨(Reload_registry_is_desired_set (fun a b : Nat => a == b)
      ({ sendCh := ⟨[], 1, false⟩, proxies := [("web", ⟨0, 1⟩), ("ssh", ⟨1, 2⟩)],
         closed := false, serverUDPPort := 7001, heapNext := 2 } : Manager Nat Nat)
      [("web", 3), ("dns", 4)] (by decide) (by decide)).1 "web",
    (Reload_registry_is_desired_set (fun a b : Nat => a == b)
      ({ sendCh := ⟨[], 1, false⟩, proxies := [("web", ⟨0, 1⟩), ("ssh", ⟨1, 2⟩)],
         closed := false, serverUDPPort := 7001, heapNext := 2 } : Manager Nat Nat)
      [("web", 3), ("dns", 4)] (by decide) (by decide)).1 "ssh"⟩

/-! ## What a run of `Reload` records -/

theorem stoppedPtrs_teardownActs {Cfg : Type} (es : List (String × Wrapper Cfg)) :
    stoppedPtrs (teardownActs es) = es.map (fun e => e.2.ptr) := by
  induction es with
  | nil => rfl
  | cons e rest ih =>
    simp only [stoppedPtrs, teardownActs] at ih
    simp [stoppedPtrs, teardownActs, List.flatMap_cons, ih]

theorem deletedNames_teardownActs {Cfg : Type} (es : List (String × Wrapper Cfg)) :
    deletedNames (teardownActs es) = mapKeys es := by
  induction es with
  | nil => rfl
  | cons e rest ih =>
    simp only [deletedNames, teardownActs, mapKeys] at ih
    simp [deletedNames, teardownActs, mapKeys, List.flatMap_cons, ih]

theorem startedPtrs_teardownActs {Cfg : Type} (es : List (String × Wrapper Cfg)) :
    startedPtrs (teardownActs es) = [] := by
  induction es with
  | nil => rfl
  | cons e rest ih =>
    simp only [startedPtrs, teardownActs] at ih
    simp [startedPtrs, teardownActs, List.flatMap_cons, ih]

theorem registered_teardownActs {Cfg : Type} (es : List (String × Wrapper Cfg)) :
    registered (teardownActs es) = [] := by
  induction es with
  | nil => rfl
  | cons e rest ih =>
    simp only [registered, teardownActs] at ih
    simp [registered, teardownActs, List.flatMap_cons, ih]

theorem constructed_teardownActs {Cfg : Type} (es : List (String × Wrapper Cfg)) :
    constructed (teardownActs es) = [] := by
  induction es with
  | nil => rfl
  | cons e rest ih =>
    simp only [constructed, teardownActs] at ih
    simp [constructed, teardownActs, List.flatMap_cons, ih]

theorem stoppedPtrs_creationActs {Cfg : Type} (port : Int) (next : Nat)
    (es : List (String × Cfg)) : stoppedPtrs (creationActs port next es) = [] := by
  induction es generalizing next with
  | nil => rfl
  | cons e rest ih =>
    simp only [stoppedPtrs] at ih
    simp [stoppedPtrs, creationActs, ih]

theorem deletedNames_creationActs {Cfg : Type} (port : Int) (next : Nat)
    (es : List (String × Cfg)) : deletedNames (creationActs port next es) = [] := by
  induction es generalizing next with
  | nil => rfl
  | cons e rest ih =>
    simp only [deletedNames] at ih
    simp [deletedNames, creationActs, ih]

theorem registered_creationActs {Cfg : Type} (port : Int) (next : Nat)
    (es : List (String × Cfg)) :
    registered (creationActs port next es) = freshEntries next es := by
  induction es generalizing next with
  | nil => rfl
  | cons e rest ih =>
    simp only [registered] at ih
    simp [registered, creationActs, freshEntries, ih]

theorem startedPtrs_creationActs {Cfg : Type} (port : Int) (next : Nat)
    (es : List (String × Cfg)) :
    startedPtrs (creationActs port next es) =
      (freshEntries next es).map (fun e => e.2.ptr) := by
  induction es generalizing next with
  | nil => rfl
  | cons e rest ih =>
    simp only [startedPtrs] at ih
    simp [startedPtrs, creationActs, freshEntries, ih]

theorem constructed_creationActs {Cfg : Type} (port : Int) (next : Nat)
    (es : List (String × Cfg)) :
    constructed (creationActs port next es) = (freshEntries next es).map Prod.snd := by
  induction es generalizing next with
  | nil => rfl
  | cons e rest ih =>
    simp only [constructed] at ih
    simp [constructed, creationActs, freshEntries, ih]

theorem projections_infoIfAny {Cfg : Type} (format : String) (names : List String) :
    stoppedPtrs (infoIfAny format names : List (Action Cfg)) = [] ∧
      deletedNames (infoIfAny format names : List (Action Cfg)) = [] ∧
      startedPtrs (infoIfAny format names : List (Action Cfg)) = [] ∧
      registered (infoIfAny format names : List (Action Cfg)) = [] ∧
      constructed (infoIfAny format names : List (Action Cfg)) = [] := by
  unfold infoIfAny
  by_cases h : names.length > 0 <;>
    simp [h, stoppedPtrs, deletedNames, startedPtrs, registered, constructed]

/-- The instances that `Reload` stops and the names it deletes. -/
theorem teardown_of_Reload {Cfg Msg : Type} (Compare : Cfg → Cfg → Bool)
    (pm : Manager Cfg Msg) (pxyCfgs : List (String × Cfg))
    (hreg : (mapKeys pm.proxies).Nodup) (hcfg : (mapKeys pxyCfgs).Nodup) :
    stoppedPtrs (Reload Compare pm pxyCfgs).2 =
        (removedEntries Compare pxyCfgs pm.proxies).map (fun e => e.2.ptr) ∧
      deletedNames (Reload Compare pm pxyCfgs).2 =
        mapKeys (removedEntries Compare pxyCfgs pm.proxies) := by
  rw [Reload_eq Compare pm pxyCfgs hreg hcfg]
  constructor
  · simp only [stoppedPtrs, List.filterMap_append]
    have h1 := stoppedPtrs_teardownActs (removedEntries Compare pxyCfgs pm.proxies)
    have h2 := stoppedPtrs_creationActs pm.serverUDPPort pm.heapNext
      (missingEntries (keptEntries Compare pxyCfgs pm.proxies) pxyCfgs)
    have h3 := (@projections_infoIfAny Cfg "proxy removed: %v"
      (mapKeys (removedEntries Compare pxyCfgs pm.proxies))).1
    have h4 := (@projections_infoIfAny Cfg "proxy added: %v"
      (mapKeys (missingEntries (keptEntries Compare pxyCfgs pm.proxies) pxyCfgs))).1
    simp only [stoppedPtrs] at h1 h2 h3 h4
    rw [h1, h2, h3, h4]
    simp
  · simp only [deletedNames, List.filterMap_append]
    have h1 := deletedNames_teardownActs (removedEntries Compare pxyCfgs pm.proxies)
    have h2 := deletedNames_creationActs pm.serverUDPPort pm.heapNext
      (missingEntries (keptEntries Compare pxyCfgs pm.proxies) pxyCfgs)
    have h3 := (@projections_infoIfAny Cfg "proxy removed: %v"
      (mapKeys (removedEntries Compare pxyCfgs pm.proxies))).2.1
    have h4 := (@projections_infoIfAny Cfg "proxy added: %v"
      (mapKeys (missingEntries (keptEntries Compare pxyCfgs pm.proxies) pxyCfgs))).2.1
    simp only [deletedNames] at h1 h2 h3 h4
    rw [h1, h2, h3, h4]
    simp

/-- The instances that `Reload` constructs, registers and starts. -/
theorem creation_of_Reload {Cfg Msg : Type} (Compare : Cfg → Cfg → Bool)
    (pm : Manager Cfg Msg) (pxyCfgs : List (String × Cfg))
    (hreg : (mapKeys pm.proxies).Nodup) (hcfg : (mapKeys pxyCfgs).Nodup) :
    registered (Reload Compare pm pxyCfgs).2 =
        freshEntries pm.heapNext
          (missingEntries (keptEntries Compare pxyCfgs pm.proxies) pxyCfgs) ∧
      startedPtrs (Reload Compare pm pxyCfgs).2 =
        (registered (Reload Compare pm pxyCfgs).2).map (fun e => e.2.ptr) ∧
      constructed (Reload Compare pm pxyCfgs).2 =
        (registered (Reload Compare pm pxyCfgs).2).map Prod.snd := by
  rw [Reload_eq Compare pm pxyCfgs hreg hcfg]
  have hr : registered (teardownActs (removedEntries Compare pxyCfgs pm.proxies) ++
      infoIfAny "proxy removed: %v" (mapKeys (removedEntries Compare pxyCfgs pm.proxies)) ++
      creationActs pm.serverUDPPort pm.heapNext
        (missingEntries (keptEntries Compare pxyCfgs pm.proxies) pxyCfgs) ++
      infoIfAny "proxy added: %v"
        (mapKeys (missingEntries (keptEntries Compare pxyCfgs pm.proxies) pxyCfgs))) =
      freshEntries pm.heapNext
        (missingEntries (keptEntries Compare pxyCfgs pm.proxies) pxyCfgs) := by
    simp only [registered, List.filterMap_append]
    have h1 := registered_teardownActs (removedEntries Compare pxyCfgs pm.proxies)
    have h2 := registered_creationActs pm.serverUDPPort pm.heapNext
      (missingEntries (keptEntries Compare pxyCfgs pm.proxies) pxyCfgs)
    have h3 := (@projections_infoIfAny Cfg "proxy removed: %v"
      (mapKeys (removedEntries Compare pxyCfgs pm.proxies))).2.2.2.1
    have h4 := (@projections_infoIfAny Cfg "proxy added: %v"
      (mapKeys (missingEntries (keptEntries Compare pxyCfgs pm.proxies) pxyCfgs))).2.2.2.1
    simp only [registered] at h1 h2 h3 h4
    rw [h1, h2, h3, h4]
    simp
  refine ⟨hr, ?_, ?_⟩
  · rw [hr]
    simp only [startedPtrs, List.filterMap_append]
    have h1 := startedPtrs_teardownActs (removedEntries Compare pxyCfgs pm.proxies)
    have h2 := startedPtrs_creationActs pm.serverUDPPort pm.heapNext
      (missingEntries (keptEntries Compare pxyCfgs pm.proxies) pxyCfgs)
    have h3 := (@projections_infoIfAny Cfg "proxy removed: %v"
      (mapKeys (removedEntries Compare pxyCfgs pm.proxies))).2.2.1
    have h4 := (@projections_infoIfAny Cfg "proxy added: %v"
      (mapKeys (missingEntries (keptEntries Compare pxyCfgs pm.proxies) pxyCfgs))).2.2.1
    simp only [startedPtrs] at h1 h2 h3 h4
    rw [h1, h2, h3, h4]
    simp
  · rw [hr]
    simp only [constructed, List.filterMap_append]
    have h1 := constructed_teardownActs (removedEntries Compare pxyCfgs pm.proxies)
    have h2 := constructed_creationActs pm.serverUDPPort pm.heapNext
      (missingEntries (keptEntries Compare pxyCfgs pm.proxies) pxyCfgs)
    have h3 := (@projections_infoIfAny Cfg "proxy removed: %v"
      (mapKeys (removedEntries Compare pxyCfgs pm.proxies))).2.2.2.2
    have h4 := (@projections_infoIfAny Cfg "proxy added: %v"
      (mapKeys (missingEntries (keptEntries Compare pxyCfgs pm.proxies) pxyCfgs))).2.2.2.2
    simp only [constructed] at h1 h2 h3 h4
    rw [h1, h2, h3, h4]
    simp

theorem mapGet_filter {β : Type} {m : List (String × β)} (hm : (mapKeys m).Nodup)
    (p : String × β → Bool) (name : String) :
    mapGet name (m.filter p) =
      match mapGet name m with
      | none => none
      | some v => if p (name, v) = true then some v else none := by
  induction m with
  | nil => simp [mapGet]
  | cons e rest ih =>
    obtain ⟨k, v⟩ := e
    simp only [mapKeys, List.map_cons, List.nodup_cons] at hm
    by_cases hk : k = name
    · subst hk
      by_cases hp : p (k, v) = true
      · simp [List.filter_cons, hp, mapGet]
      · have hnone : mapGet k (rest.filter p) = none := by
          rw [mapGet_eq_none_iff]
          intro q
          obtain ⟨x, hx, hxk⟩ := List.mem_map.mp q
          exact hm.1 (List.mem_map.mpr ⟨x, (List.mem_filter.mp hx).1, hxk⟩)
        simp [List.filter_cons, hp, mapGet, hnone]
    · by_cases hp : p (k, v) = true
      · simp [List.filter_cons, hp, mapGet, hk, ih hm.2]
      · simp [List.filter_cons, hp, mapGet, hk, ih hm.2]

/-- C2: the instances `Reload` stops, and the names it deletes, are those of
the registered entries that are marked (name not a key of the desired set, or
`Compare` false); the names it registers are the keys of the desired set that
are absent from the registry or whose entry is marked, each with a newly
constructed instance holding the desired configuration, which is started.
From an empty registry, `web` and `ssh` are started and nothing is stopped; a
following `Reload` with `ssh` alone stops the instance of `web`, once, and
starts nothing. -/
theorem Reload_diff {Cfg Msg : Type} (Compare : Cfg → Cfg → Bool)
    (pm : Manager Cfg Msg) (pxyCfgs : List (String × Cfg))
    (hreg : (mapKeys pm.proxies).Nodup) (hcfg : (mapKeys pxyCfgs).Nodup) :
    (stoppedPtrs (Reload Compare pm pxyCfgs).2 =
        (pm.proxies.filter (marked Compare pxyCfgs)).map (fun e => e.2.ptr) ∧
      deletedNames (Reload Compare pm pxyCfgs).2 =
        mapKeys (pm.proxies.filter (marked Compare pxyCfgs)) ∧
      (registered (Reload Compare pm pxyCfgs).2).map Prod.fst =
        mapKeys (pxyCfgs.filter (fun e =>
          match mapGet e.1 pm.proxies with
          | none => true
          | some pxy => marked Compare pxyCfgs (e.1, pxy))) ∧
      (∀ e ∈ registered (Reload Compare pm pxyCfgs).2,
        mapGet e.1 pxyCfgs = some e.2.Cfg) ∧
      constructed (Reload Compare pm pxyCfgs).2 =
        (registered (Reload Compare pm pxyCfgs).2).map Prod.snd ∧
      startedPtrs (Reload Compare pm pxyCfgs).2 =
        (registered (Reload Compare pm pxyCfgs).2).map (fun e => e.2.ptr)) ∧
    (∀ (CfgA CfgB : Cfg) (msgSendCh : Chan Msg) (serverUDPPort : Int) (heapNext : Nat),
      Compare CfgB CfgB = true →
      (stoppedPtrs (Reload Compare (NewManager msgSendCh serverUDPPort heapNext)
          [("web", CfgA), ("ssh", CfgB)]).2 = [] ∧
        registered (Reload Compare (NewManager msgSendCh serverUDPPort heapNext)
          [("web", CfgA), ("ssh", CfgB)]).2 =
          [("web", { ptr := heapNext, Cfg := CfgA }),
            ("ssh", { ptr := heapNext + 1, Cfg := CfgB })] ∧
        startedPtrs (Reload Compare (NewManager msgSendCh serverUDPPort heapNext)
          [("web", CfgA), ("ssh", CfgB)]).2 = [heapNext, heapNext + 1]) ∧
      (stoppedPtrs (Reload Compare
          (Reload Compare (NewManager msgSendCh serverUDPPort heapNext)
            [("web", CfgA), ("ssh", CfgB)]).1 [("ssh", CfgB)]).2 = [heapNext] ∧
        deletedNames (Reload Compare
          (Reload Compare (NewManager msgSendCh serverUDPPort heapNext)
            [("web", CfgA), ("ssh", CfgB)]).1 [("ssh", CfgB)]).2 = ["web"] ∧
        registered (Reload Compare
          (Reload Compare (NewManager msgSendCh serverUDPPort heapNext)
            [("web", CfgA), ("ssh", CfgB)]).1 [("ssh", CfgB)]).2 = [] ∧
        constructed (Reload Compare
          (Reload Compare (NewManager msgSendCh serverUDPPort heapNext)
            [("web", CfgA), ("ssh", CfgB)]).1 [("ssh", CfgB)]).2 = [] ∧
        startedPtrs (Reload Compare
          (Reload Compare (NewManager msgSendCh serverUDPPort heapNext)
            [("web", CfgA), ("ssh", CfgB)]).1 [("ssh", CfgB)]).2 = [])) := by
  have ht := teardown_of_Reload Compare pm pxyCfgs hreg hcfg
  have hc := creation_of_Reload Compare pm pxyCfgs hreg hcfg
  refine ⟨⟨ht.1, ht.2, ?_, ?_, hc.2.2, hc.2.1⟩, ?_⟩
  · rw [hc.1]
    have h2 := mapKeys_freshEntries pm.heapNext
      (missingEntries (keptEntries Compare pxyCfgs pm.proxies) pxyCfgs)
    simp only [mapKeys] at h2
    rw [h2]
    simp only [mapKeys, missingEntries]
    congr 1
    apply List.filter_congr
    intro x _
    unfold keptEntries
    rw [mapGet_filter hreg]
    cases hg : mapGet x.1 pm.proxies with
    | none => simp
    | some w => cases hm : marked Compare pxyCfgs (x.1, w) <;> simp [hm]
  · intro e he
    rw [hc.1] at he
    have h1 := (mem_freshEntries he).1
    exact mapGet_of_mem hcfg ((mem_missingEntries _ _ _).mp h1).1
  · intro CfgA CfgB msgSendCh serverUDPPort heapNext hB
    have hws : ¬ ("web" = "ssh") := by decide
    have hsw : ¬ ("ssh" = "web") := by decide
    simp [Reload, NewManager, reloadDelBody, reloadAddBody, mapGet, mapSet, mapDelete,
      infoIfAny, stoppedPtrs, deletedNames, startedPtrs, registered, constructed, hB,
      hws, hsw]

/-- Witness of C2: `web` is replaced, `ssh` is dropped and `dns` is new. -/
theorem Reload_diff_witness :
    stoppedPtrs (Reload (fun a b : Nat => a == b)
        ({ sendCh := ⟨[], 1, false⟩, proxies := [("web", ⟨0, 1⟩), ("ssh", ⟨1, 2⟩)],
           closed := false, serverUDPPort := 7001, heapNext := 2 } : Manager Nat Nat)
        [("web", 3), ("dns", 4)]).2 =
      ([("web", ⟨0, 1⟩), ("ssh", ⟨1, 2⟩)].filter
        (marked (fun a b : Nat => a == b) [("web", 3), ("dns", 4)])).map (fun e => e.2.ptr) :=
  (Reload_diff (fun a b : Nat => a == b)
    ({ sendCh := ⟨[], 1, false⟩, proxies := [("web", ⟨0, 1⟩), ("ssh", ⟨1, 2⟩)],
       closed := false, serverUDPPort := 7001, heapNext := 2 } : Manager Nat Nat)
    [("web", 3), ("dns", 4)] (by decide) (by decide)).1.1

theorem mem_removedEntries {Cfg : Type} (Compare : Cfg → Cfg → Bool)
    (pxyCfgs : List (String × Cfg)) (reg : List (String × Wrapper Cfg))
    (entry : String × Wrapper Cfg) :
    entry ∈ removedEntries Compare pxyCfgs reg ↔
      entry ∈ reg ∧ marked Compare pxyCfgs entry = true := by
  simp [removedEntries, List.mem_filter]

theorem mapGet_keptEntries_of_unmarked {Cfg : Type} (Compare : Cfg → Cfg → Bool)
    (pxyCfgs : List (String × Cfg)) {reg : List (String × Wrapper Cfg)}
    (hreg : (mapKeys reg).Nodup) {name : String} {pxy : Wrapper Cfg}
    (hget : mapGet name reg = some pxy) (hm : marked Compare pxyCfgs (name, pxy) = false) :
    mapGet name (keptEntries Compare pxyCfgs reg) = some pxy := by
  unfold keptEntries
  rw [mapGet_filter hreg, hget]
  simp [hm]

theorem mapGet_keptEntries_of_marked {Cfg : Type} (Compare : Cfg → Cfg → Bool)
    (pxyCfgs : List (String × Cfg)) {reg : List (String × Wrapper Cfg)}
    (hreg : (mapKeys reg).Nodup) {name : String} {pxy : Wrapper Cfg}
    (hget : mapGet name reg = some pxy) (hm : marked Compare pxyCfgs (name, pxy) = true) :
    mapGet name (keptEntries Compare pxyCfgs reg) = none := by
  unfold keptEntries
  rw [mapGet_filter hreg, hget]
  simp [hm]

/-- `Reload` keeps a manager well formed. -/
theorem Reload_WF {Cfg Msg : Type} (Compare : Cfg → Cfg → Bool) (pm : Manager Cfg Msg)
    (pxyCfgs : List (String × Cfg)) (hwf : pm.WF) (hcfg : (mapKeys pxyCfgs).Nodup) :
    (Reload Compare pm pxyCfgs).1.WF := by
  obtain ⟨hkeys, hptrs, hlt⟩ := hwf
  refine ⟨nodup_mapKeys_Reload Compare pm pxyCfgs hkeys hcfg, ?_, ?_⟩
  · rw [Reload_eq Compare pm pxyCfgs hkeys hcfg]
    simp only [List.map_append, ptrs_freshEntries]
    rw [List.nodup_append]
    refine ⟨List.Nodup.sublist (List.Sublist.map _ (List.filter_sublist _)) hptrs,
      List.nodup_range' _ _, ?_⟩
    intro a ha hb
    obtain ⟨e, he, hp⟩ := List.mem_map.mp ha
    have h1 := hlt e ((mem_keptEntries _ _ _ e).mp he).1
    have h2 := (List.mem_range'_1.mp hb).1
    omega
  · rw [Reload_eq Compare pm pxyCfgs hkeys hcfg]
    intro e he
    simp only [List.mem_append] at he
    rcases he with he | he
    · have h1 := hlt e ((mem_keptEntries _ _ _ e).mp he).1
      simp only
      omega
    · exact (mem_freshEntries he).2.2

/-- A new manager is well formed. -/
theorem NewManager_WF {Cfg Msg : Type} (msgSendCh : Chan Msg) (serverUDPPort : Int)
    (heapNext : Nat) : (NewManager msgSendCh serverUDPPort heapNext : Manager Cfg Msg).WF := by
  simp [Manager.WF, NewManager, mapKeys]

/-- `Close` leaves a well-formed manager. -/
theorem Close_WF {Cfg Msg : Type} (pm : Manager Cfg Msg) : (Close pm).1.WF := by
  simp [Manager.WF, Close, mapKeys]

/-- C3: an instance registered under a name that the desired set also has,
with a configuration that `Compare` accepts, is still the instance registered
under that name after `Reload`; `Reload` neither stops nor starts it, does not
delete its name, registers nothing under its name and constructs no instance
that is this one. -/
theorem Reload_keeps_unchanged {Cfg Msg : Type} (Compare : Cfg → Cfg → Bool)
    (pm : Manager Cfg Msg) (pxyCfgs : List (String × Cfg)) (hwf : pm.WF)
    (hcfg : (mapKeys pxyCfgs).Nodup) (name : String) (pxy : Wrapper Cfg) (cfg : Cfg)
    (hget : mapGet name pm.proxies = some pxy) (hdes : mapGet name pxyCfgs = some cfg)
    (hsame : Compare pxy.Cfg cfg = true) :
    mapGet name (Reload Compare pm pxyCfgs).1.proxies = some pxy ∧
      pxy.ptr ∉ stoppedPtrs (Reload Compare pm pxyCfgs).2 ∧
      pxy.ptr ∉ startedPtrs (Reload Compare pm pxyCfgs).2 ∧
      name ∉ deletedNames (Reload Compare pm pxyCfgs).2 ∧
      name ∉ (registered (Reload Compare pm pxyCfgs).2).map Prod.fst ∧
      ∀ w ∈ constructed (Reload Compare pm pxyCfgs).2, w.ptr ≠ pxy.ptr := by
  obtain ⟨hkeys, hptrs, hlt⟩ := hwf
  have hm : marked Compare pxyCfgs (name, pxy) = false :=
    (marked_eq_false_iff Compare pxyCfgs (name, pxy)).mpr ⟨cfg, hdes, hsame⟩
  have hmem : (name, pxy) ∈ pm.proxies := mem_of_mapGet hget
  have hkept := mapGet_keptEntries_of_unmarked Compare pxyCfgs hkeys hget hm
  have ht := teardown_of_Reload Compare pm pxyCfgs hkeys hcfg
  have hc := creation_of_Reload Compare pm pxyCfgs hkeys hcfg
  have hfresh : ∀ e ∈ registered (Reload Compare pm pxyCfgs).2, pxy.ptr < e.2.ptr := by
    intro e he
    rw [hc.1] at he
    have h1 := (mem_freshEntries he).2.1
    have h2 := hlt (name, pxy) hmem
    simp only at h2
    omega
  refine ⟨?_, ?_, ?_, ?_, ?_, ?_⟩
  · rw [Reload_eq Compare pm pxyCfgs hkeys hcfg]
    simp only
    rw [mapGet_append, hkept]
  · rw [ht.1]
    intro h
    obtain ⟨e, he, hp⟩ := List.mem_map.mp h
    have he2 := (mem_removedEntries _ _ _ e).mp he
    have : e = (name, pxy) := List.inj_on_of_nodup_map hptrs he2.1 hmem hp
    rw [this, hm] at he2
    exact Bool.noConfusion he2.2
  · rw [hc.2.1]
    intro h
    obtain ⟨e, he, hp⟩ := List.mem_map.mp h
    have := hfresh e he
    omega
  · rw [ht.2]
    intro h
    obtain ⟨e, he, hk⟩ := List.mem_map.mp h
    have he2 := (mem_removedEntries _ _ _ e).mp he
    have : e = (name, pxy) := List.inj_on_of_nodup_map hkeys he2.1 hmem hk
    rw [this, hm] at he2
    exact Bool.noConfusion he2.2
  · rw [hc.1]
    intro h
    obtain ⟨e, he, hk⟩ := List.mem_map.mp h
    have h1 := ((mem_missingEntries _ _ _).mp (mem_freshEntries he).1).2
    simp only at h1
    rw [hk, ← mapGet_eq_none_iff, hkept] at h1
    exact Option.noConfusion h1
  · intro w hw
    rw [hc.2.2] at hw
    obtain ⟨e, he, hk⟩ := List.mem_map.mp hw
    have := hfresh e he
    rw [hk] at this
    omega

/-- Witness of C3: `ssh` is unchanged while `web` is replaced. -/
theorem Reload_keeps_unchanged_witness :
    mapGet "ssh" (Reload (fun a b : Nat => a == b)
        ({ sendCh := ⟨[], 1, false⟩, proxies := [("web", ⟨0, 1⟩), ("ssh", ⟨1, 2⟩)],
           closed := false, serverUDPPort := 7001, heapNext := 2 } : Manager Nat Nat)
        [("web", 3), ("ssh", 2)]).1.proxies = some ⟨1, 2⟩ :=
  (Reload_keeps_unchanged (fun a b : Nat => a == b)
    ({ sendCh := ⟨[], 1, false⟩, proxies := [("web", ⟨0, 1⟩), ("ssh", ⟨1, 2⟩)],
       closed := false, serverUDPPort := 7001, heapNext := 2 } : Manager Nat Nat)
    [("web", 3), ("ssh", 2)] (by decide) (by decide) "ssh" ⟨1, 2⟩ 2
    (by decide) (by decide) (by decide)).1

/-! ## The order of the steps of `Reload` -/

theorem isCreation_teardownActs {Cfg : Type} (es : List (String × Wrapper Cfg)) :
    ∀ a ∈ teardownActs es, a.isCreation = false := by
  intro a ha
  simp only [teardownActs, List.mem_flatMap] at ha
  obtain ⟨e, _, he⟩ := ha
  simp only [List.mem_cons, List.mem_singleton, List.not_mem_nil, or_false] at he
  rcases he with he | he <;> subst he <;> rfl

theorem isTeardown_creationActs {Cfg : Type} (port : Int) (next : Nat)
    (es : List (String × Cfg)) :
    ∀ a ∈ creationActs port next es, a.isTeardown = false := by
  induction es generalizing next with
  | nil => intro a ha; simp [creationActs] at ha
  | cons e rest ih =>
    intro a ha
    simp only [creationActs, List.cons_append, List.nil_append, List.mem_cons] at ha
    rcases ha with ha | ha | ha | ha
    · subst ha; rfl
    · subst ha; rfl
    · subst ha; rfl
    · exact ih _ a ha

theorem flags_infoIfAny {Cfg : Type} (format : String) (names : List String) :
    ∀ a ∈ (infoIfAny format names : List (Action Cfg)),
      a.isCreation = false ∧ a.isTeardown = false := by
  intro a ha
  unfold infoIfAny at ha
  by_cases h : names.length > 0
  · simp only [h, if_true, List.mem_singleton] at ha
    subst ha
    exact ⟨rfl, rfl⟩
  · simp [h] at ha

theorem no_teardown_after_creation {Cfg : Type} (xs ys : List (Action Cfg))
    (hx : ∀ a ∈ xs, a.isCreation = false) (hy : ∀ b ∈ ys, b.isTeardown = false)
    (pre post : List (Action Cfg)) (a : Action Cfg) (hsplit : xs ++ ys = pre ++ a :: post)
    (ha : a.isCreation = true) : ∀ b ∈ post, b.isTeardown = false := by
  intro b hb
  rcases List.append_eq_append_iff.mp hsplit with ⟨m, _, h2⟩ | ⟨m, h1, h2⟩
  · apply hy
    rw [h2]
    exact List.mem_append_right _ (List.mem_cons_of_mem _ hb)
  · cases m with
    | nil =>
      apply hy
      simp only [List.nil_append] at h2
      rw [← h2]
      exact List.mem_cons_of_mem _ hb
    | cons c m =>
      simp only [List.cons_append, List.cons.injEq] at h2
      have hc : a ∈ xs := by
        rw [h1, h2.1]
        exact List.mem_append_right _ (List.mem_cons_self _ _)
      have := hx a hc
      rw [ha] at this
      exact Bool.noConfusion this

theorem nodup_mapKeys_applyAction {Cfg : Type} (reg : List (String × Wrapper Cfg))
    (hreg : (mapKeys reg).Nodup) (a : Action Cfg) : (mapKeys (applyAction reg a)).Nodup := by
  cases a with
  | delete name => exact nodup_mapKeys_mapDelete name hreg
  | register name pxy => exact nodup_mapKeys_mapSet name pxy hreg
  | clear => exact List.nodup_nil
  | Stop _ => exact hreg
  | Start _ => exact hreg
  | NewWrapper _ _ _ => exact hreg
  | SetRunningStatus _ _ _ => exact hreg
  | InWorkConn _ _ _ => exact hreg
  | connClose _ => exact hreg
  | GetStatus _ => exact hreg
  | Info _ _ => exact hreg

theorem nodup_mapKeys_replay {Cfg : Type} (acts : List (Action Cfg))
    (reg : List (String × Wrapper Cfg)) (hreg : (mapKeys reg).Nodup) :
    (mapKeys (replay reg acts)).Nodup := by
  induction acts generalizing reg with
  | nil => exact hreg
  | cons a rest ih => exact ih _ (nodup_mapKeys_applyAction reg hreg a)

theorem replay_append {Cfg : Type} (reg : List (String × Wrapper Cfg))
    (xs ys : List (Action Cfg)) : replay reg (xs ++ ys) = replay (replay reg xs) ys := by
  simp [replay, List.foldl_append]

theorem replay_infoIfAny {Cfg : Type} (reg : List (String × Wrapper Cfg)) (format : String)
    (names : List String) : replay reg (infoIfAny format names) = reg := by
  unfold infoIfAny
  by_cases h : names.length > 0 <;> simp [h, replay, applyAction]

theorem replay_foldl_reloadDelBody {Cfg : Type} (Compare : Cfg → Cfg → Bool)
    (pxyCfgs : List (String × Cfg)) (reg : List (String × Wrapper Cfg))
    (l : List (String × Wrapper Cfg)) (st : DelLoop Cfg)
    (h : replay reg st.acts = st.proxies) :
    replay reg (l.foldl (reloadDelBody Compare pxyCfgs) st).acts =
      (l.foldl (reloadDelBody Compare pxyCfgs) st).proxies := by
  induction l generalizing st with
  | nil => exact h
  | cons e rest ih =>
    rw [List.foldl_cons]
    apply ih
    rw [reloadDelBody_eq]
    by_cases hm : marked Compare pxyCfgs e = true
    · simp only [hm, if_true]
      rw [replay_append, h]
      rfl
    · simp only [hm]
      exact h

theorem replay_foldl_reloadAddBody {Cfg : Type} (port : Int)
    (reg : List (String × Wrapper Cfg)) (l : List (String × Cfg)) (st : AddLoop Cfg)
    (h : replay reg st.acts = st.proxies) :
    replay reg (l.foldl (reloadAddBody port) st).acts =
      (l.foldl (reloadAddBody port) st).proxies := by
  induction l generalizing st with
  | nil => exact h
  | cons e rest ih =>
    rw [List.foldl_cons]
    apply ih
    cases hg : mapGet e.1 st.proxies with
    | some w =>
      rw [reloadAddBody_of_some port st e w hg]
      exact h
    | none =>
      rw [reloadAddBody_of_none port st e hg]
      simp only
      rw [replay_append, h]
      simp [replay, applyAction, mapSet_of_mapGet_none _ hg]

/-- Replaying the steps recorded by `Reload` on the registry it started from
gives the registry it leaves. -/
theorem replay_Reload {Cfg Msg : Type} (Compare : Cfg → Cfg → Bool) (pm : Manager Cfg Msg)
    (pxyCfgs : List (String × Cfg)) :
    replay pm.proxies (Reload Compare pm pxyCfgs).2 = (Reload Compare pm pxyCfgs).1.proxies := by
  unfold Reload
  simp only [replay_append, replay_infoIfAny]
  rw [replay_foldl_reloadDelBody Compare pxyCfgs pm.proxies pm.proxies _ rfl]
  exact replay_foldl_reloadAddBody pm.serverUDPPort _ pxyCfgs _ rfl

theorem creationActs_append {Cfg : Type} (port : Int) (next : Nat)
    (es fs : List (String × Cfg)) :
    creationActs port next (es ++ fs) =
      creationActs port next es ++ creationActs port (next + es.length) fs := by
  induction es generalizing next with
  | nil => simp [creationActs]
  | cons e rest ih =>
    have hn : next + (rest.length + 1) = next + 1 + rest.length := by omega
    simp only [List.cons_append, creationActs, List.length_cons, hn, List.nil_append]
    exact congrArg _ (congrArg _ (congrArg _ (ih (next + 1))))

/-- C4: in the steps of one `Reload`, no `Stop` and no `delete` comes after a
construction, a registration or a `Start`; no registry met on the way has a
name twice; and for a name whose registered configuration `Compare` rejects,
the old instance is deleted and stopped before the new one, built from the
desired configuration, is constructed, registered and started, and the new one
is the instance registered under that name in the end. -/
theorem Reload_teardown_before_creation {Cfg Msg : Type} (Compare : Cfg → Cfg → Bool)
    (pm : Manager Cfg Msg) (pxyCfgs : List (String × Cfg))
    (hreg : (mapKeys pm.proxies).Nodup) (hcfg : (mapKeys pxyCfgs).Nodup) :
    (∀ (pre post : List (Action Cfg)) (a : Action Cfg),
        (Reload Compare pm pxyCfgs).2 = pre ++ a :: post → a.isCreation = true →
        ∀ b ∈ post, b.isTeardown = false) ∧
      (∀ pre post : List (Action Cfg), (Reload Compare pm pxyCfgs).2 = pre ++ post →
        (mapKeys (replay pm.proxies pre)).Nodup) ∧
      replay pm.proxies (Reload Compare pm pxyCfgs).2 =
        (Reload Compare pm pxyCfgs).1.proxies ∧
      (∀ (name : String) (old : Wrapper Cfg) (cfg : Cfg),
        mapGet name pm.proxies = some old → mapGet name pxyCfgs = some cfg →
        Compare old.Cfg cfg = false →
        ∃ (a b c : List (Action Cfg)) (fresh : Wrapper Cfg),
          (Reload Compare pm pxyCfgs).2 =
            a ++ [Action.delete name, Action.Stop old.ptr] ++ b ++
              [Action.NewWrapper fresh.ptr cfg pm.serverUDPPort,
                Action.register name fresh, Action.Start fresh.ptr] ++ c ∧
          fresh.Cfg = cfg ∧ pm.heapNext ≤ fresh.ptr ∧
          mapGet name (Reload Compare pm pxyCfgs).1.proxies = some fresh) := by
  refine ⟨?_, ?_, replay_Reload Compare pm pxyCfgs, ?_⟩
  · intro pre post a hsplit ha
    rw [Reload_eq Compare pm pxyCfgs hreg hcfg] at hsplit
    simp only [List.append_assoc] at hsplit
    rw [← List.append_assoc] at hsplit
    refine no_teardown_after_creation _ _ ?_ ?_ pre post a hsplit ha
    · intro x hx
      rcases List.mem_append.mp hx with hx | hx
      · exact isCreation_teardownActs _ x hx
      · exact (flags_infoIfAny _ _ x hx).1
    · intro x hx
      rcases List.mem_append.mp hx with hx | hx
      · exact isTeardown_creationActs _ _ _ x hx
      · exact (flags_infoIfAny _ _ x hx).2
  · intro pre post _
    exact nodup_mapKeys_replay pre pm.proxies hreg
  · intro name old cfg hget hdes hdiff
    have hm : marked Compare pxyCfgs (name, old) = true := by
      simp [marked, hdes, hdiff]
    have hrem : (name, old) ∈ removedEntries Compare pxyCfgs pm.proxies :=
      (mem_removedEntries _ _ _ _).mpr ⟨mem_of_mapGet hget, hm⟩
    have hknone := mapGet_keptEntries_of_marked Compare pxyCfgs hreg hget hm
    have hmis : (name, cfg) ∈
        missingEntries (keptEntries Compare pxyCfgs pm.proxies) pxyCfgs :=
      (mem_missingEntries _ _ _).mpr
        ⟨mem_of_mapGet hdes, (mapGet_eq_none_iff _ _).mp hknone⟩
    obtain ⟨s, t, hst⟩ := List.append_of_mem hrem
    obtain ⟨u, v, huv⟩ := List.append_of_mem hmis
    refine ⟨teardownActs s,
      teardownActs t ++
        infoIfAny "proxy removed: %v" (mapKeys (removedEntries Compare pxyCfgs pm.proxies)) ++
        creationActs pm.serverUDPPort pm.heapNext u,
      creationActs pm.serverUDPPort (pm.heapNext + u.length + 1) v ++
        infoIfAny "proxy added: %v"
          (mapKeys (missingEntries (keptEntries Compare pxyCfgs pm.proxies) pxyCfgs)),
      { ptr := pm.heapNext + u.length, Cfg := cfg }, ?_, rfl, Nat.le_add_right _ _, ?_⟩
    · rw [Reload_eq Compare pm pxyCfgs hreg hcfg]
      simp only
      have h1 : teardownActs (removedEntries Compare pxyCfgs pm.proxies) =
          teardownActs s ++ [Action.delete name, Action.Stop old.ptr] ++ teardownActs t := by
        rw [hst]
        simp [teardownActs, List.flatMap_append, List.flatMap_cons]
      have h2 : creationActs pm.serverUDPPort pm.heapNext
          (missingEntries (keptEntries Compare pxyCfgs pm.proxies) pxyCfgs) =
          creationActs pm.serverUDPPort pm.heapNext u ++
            [Action.NewWrapper (pm.heapNext + u.length) cfg pm.serverUDPPort,
              Action.register name { ptr := pm.heapNext + u.length, Cfg := cfg },
              Action.Start (pm.heapNext + u.length)] ++
            creationActs pm.serverUDPPort (pm.heapNext + u.length + 1) v := by
        rw [huv, creationActs_append]
        simp [creationActs]
      rw [h1, h2]
      simp only [List.append_assoc]
    · rw [Reload_eq Compare pm pxyCfgs hreg hcfg]
      simp only
      rw [mapGet_append, hknone]
      simp only
      apply mapGet_of_mem
      · rw [mapKeys_freshEntries]
        exact nodup_mapKeys_missingEntries _ hcfg
      · rw [huv, freshEntries_append]
        simp [freshEntries]

/-- Witness of C4: `web` is replaced while `ssh` is unchanged. -/
theorem Reload_teardown_before_creation_witness :
    replay [("web", ⟨0, 1⟩), ("ssh", ⟨1, 2⟩)]
        (Reload (fun a b : Nat => a == b)
          ({ sendCh := ⟨[], 1, false⟩, proxies := [("web", ⟨0, 1⟩), ("ssh", ⟨1, 2⟩)],
             closed := false, serverUDPPort := 7001, heapNext := 2 } : Manager Nat Nat)
          [("web", 3), ("ssh", 2)]).2 =
      (Reload (fun a b : Nat => a == b)
        ({ sendCh := ⟨[], 1, false⟩, proxies := [("web", ⟨0, 1⟩), ("ssh", ⟨1, 2⟩)],
           closed := false, serverUDPPort := 7001, heapNext := 2 } : Manager Nat Nat)
        [("web", 3), ("ssh", 2)]).1.proxies :=
  (Reload_teardown_before_creation (fun a b : Nat => a == b)
    ({ sendCh := ⟨[], 1, false⟩, proxies := [("web", ⟨0, 1⟩), ("ssh", ⟨1, 2⟩)],
       closed := false, serverUDPPort := 7001, heapNext := 2 } : Manager Nat Nat)
    [("web", 3), ("ssh", 2)] (by decide) (by decide)).2.2.1

/-! ## `Reload` twice -/

theorem Reload_of_settled {Cfg Msg : Type} (Compare : Cfg → Cfg → Bool)
    (pm : Manager Cfg Msg) (pxyCfgs : List (String × Cfg))
    (hreg : (mapKeys pm.proxies).Nodup) (hcfg : (mapKeys pxyCfgs).Nodup)
    (hkeep : ∀ e ∈ pm.proxies, marked Compare pxyCfgs e = false)
    (hall : ∀ e ∈ pxyCfgs, e.1 ∈ mapKeys pm.proxies) :
    Reload Compare pm pxyCfgs = (pm, []) := by
  have h1 : removedEntries Compare pxyCfgs pm.proxies = [] := by
    unfold removedEntries
    rw [List.filter_eq_nil_iff]
    intro e he
    simp [hkeep e he]
  have h2 : keptEntries Compare pxyCfgs pm.proxies = pm.proxies := by
    unfold keptEntries
    rw [List.filter_eq_self]
    intro e he
    simp [hkeep e he]
  have h3 : missingEntries pm.proxies pxyCfgs = [] := by
    unfold missingEntries
    rw [List.filter_eq_nil_iff]
    intro e he
    have := (mapGet_isSome_iff e.1 pm.proxies).mpr (hall e he)
    cases hg : mapGet e.1 pm.proxies with
    | none => simp [hg] at this
    | some w => simp
  rw [Reload_eq Compare pm pxyCfgs hreg hcfg, h1, h2, h3]
  simp [teardownActs, creationActs, freshEntries, infoIfAny, mapKeys]

/-- C5: when `Compare` accepts every desired configuration against itself, a
second `Reload` with the same desired set records no step at all (no `Stop`,
no `delete`, no construction, no `Start`, no log record) and returns the
manager that the first call left. -/
theorem Reload_idempotent {Cfg Msg : Type} (Compare : Cfg → Cfg → Bool)
    (pm : Manager Cfg Msg) (pxyCfgs : List (String × Cfg))
    (hreg : (mapKeys pm.proxies).Nodup) (hcfg : (mapKeys pxyCfgs).Nodup)
    (hrefl : ∀ e ∈ pxyCfgs, Compare e.2 e.2 = true) :
    Reload Compare (Reload Compare pm pxyCfgs).1 pxyCfgs =
      ((Reload Compare pm pxyCfgs).1, []) := by
  apply Reload_of_settled Compare _ pxyCfgs
    (nodup_mapKeys_Reload Compare pm pxyCfgs hreg hcfg) hcfg
  · intro e he
    rw [Reload_eq Compare pm pxyCfgs hreg hcfg] at he
    simp only [List.mem_append] at he
    rcases he with he | he
    · exact ((mem_keptEntries _ _ _ e).mp he).2
    · have h1 := ((mem_missingEntries _ _ _).mp (mem_freshEntries he).1).1
      rw [marked_eq_false_iff]
      exact ⟨e.2.Cfg, mapGet_of_mem hcfg h1, hrefl _ h1⟩
  · intro e he
    exact (mem_mapKeys_Reload Compare pm pxyCfgs hreg hcfg e.1).mpr
      (List.mem_map.mpr ⟨e, he, rfl⟩)

/-- Witness of C5: `web` is replaced, `ssh` is dropped and `dns` is new. -/
theorem Reload_idempotent_witness :
    (Reload (fun a b : Nat => a == b)
      (Reload (fun a b : Nat => a == b)
        ({ sendCh := ⟨[], 1, false⟩, proxies := [("web", ⟨0, 1⟩), ("ssh", ⟨1, 2⟩)],
           closed := false, serverUDPPort := 7001, heapNext := 2 } : Manager Nat Nat)
        [("web", 3), ("dns", 4)]).1 [("web", 3), ("dns", 4)]).2 = [] :=
  congrArg Prod.snd
    (Reload_idempotent (fun a b : Nat => a == b)
      ({ sendCh := ⟨[], 1, false⟩, proxies := [("web", ⟨0, 1⟩), ("ssh", ⟨1, 2⟩)],
         closed := false, serverUDPPort := 7001, heapNext := 2 } : Manager Nat Nat)
      [("web", 3), ("dns", 4)] (by decide) (by decide) (by decide))

/-! ## `Close` and `GetAllProxyStatus` -/

theorem foldl_stop {Cfg : Type} (l : List (String × Wrapper Cfg)) (acc : List (Action Cfg)) :
    l.foldl (fun acc e => acc ++ [Action.Stop e.2.ptr]) acc =
      acc ++ l.map (fun e => Action.Stop e.2.ptr) := by
  induction l generalizing acc with
  | nil => simp
  | cons e rest ih => simp [ih]

theorem stoppedPtrs_map_stop {Cfg : Type} (l : List (String × Wrapper Cfg)) :
    stoppedPtrs (l.map (fun e => (Action.Stop e.2.ptr : Action Cfg))) =
      l.map (fun e => e.2.ptr) := by
  induction l with
  | nil => rfl
  | cons e rest ih =>
    simp only [stoppedPtrs] at ih
    simp [stoppedPtrs, ih]

/-- C6: `Close` calls `Stop` once for every registered instance, on no other
instance and makes no other call, then empties the registry; a status query on
the manager it leaves returns an empty collection (and calls no instance). -/
theorem Close_stops_each_once {Cfg Msg St : Type} (GetStatus : Wrapper Cfg → St)
    (pm : Manager Cfg Msg) (hptr : (pm.proxies.map (fun e => e.2.ptr)).Nodup) :
    (Close pm).2 = pm.proxies.map (fun e => Action.Stop e.2.ptr) ++ [Action.clear] ∧
      (∀ p : Nat, (stoppedPtrs (Close pm).2).count p =
        if p ∈ pm.proxies.map (fun e => e.2.ptr) then 1 else 0) ∧
      (Close pm).1.proxies = [] ∧
      GetAllProxyStatus GetStatus (Close pm).1 = ([], []) := by
  have hacts : (Close pm).2 =
      pm.proxies.map (fun e => Action.Stop e.2.ptr) ++ [Action.clear] := by
    simp [Close, foldl_stop]
  refine ⟨hacts, ?_, rfl, rfl⟩
  intro p
  have hs : stoppedPtrs (Close pm).2 = pm.proxies.map (fun e => e.2.ptr) := by
    rw [hacts]
    unfold stoppedPtrs
    rw [List.filterMap_append]
    have := stoppedPtrs_map_stop pm.proxies
    unfold stoppedPtrs at this
    rw [this]
    simp
  rw [hs]
  by_cases hp : p ∈ pm.proxies.map (fun e => e.2.ptr)
  · rw [if_pos hp, List.count_eq_one_of_mem hptr hp]
  · rw [if_neg hp, List.count_eq_zero_of_not_mem hp]

/-- Witness of C6: two registered instances. -/
theorem Close_stops_each_once_witness :
    (Close ({ sendCh := ⟨[], 1, false⟩,
              proxies := [("web", ⟨0, 1⟩), ("ssh", ⟨1, 2⟩)],
              closed := false, serverUDPPort := 7001, heapNext := 2 } : Manager Nat Nat)).2 =
      [Action.Stop 0, Action.Stop 1, Action.clear] :=
  (Close_stops_each_once (fun w : Wrapper Nat => w.ptr)
    ({ sendCh := ⟨[], 1, false⟩,
       proxies := [("web", ⟨0, 1⟩), ("ssh", ⟨1, 2⟩)],
       closed := false, serverUDPPort := 7001, heapNext := 2 } : Manager Nat Nat)
    (by decide)).1

/-! ## `StartProxy` -/

/-- C7: `StartProxy` on a name that is not registered returns the not-found
error, makes no call on any instance and leaves the manager as it was. -/
theorem StartProxy_not_registered {Cfg Msg : Type}
    (SetRunningStatus : Wrapper Cfg → String → String → Option GoError)
    (pm : Manager Cfg Msg) (name remoteAddr serverRespErr : String)
    (h : name ∉ mapKeys pm.proxies) :
    StartProxy SetRunningStatus pm name remoteAddr serverRespErr =
      (pm, some (GoError.errorf ("proxy [" ++ name ++ "] not found")), []) := by
  unfold StartProxy
  rw [(mapGet_eq_none_iff name pm.proxies).mpr h]

/-- Witness of C7: `StartProxy("missing", "", "")` with `web` registered. -/
theorem StartProxy_not_registered_witness :
    StartProxy (fun _ _ _ => none)
        ({ sendCh := ⟨[], 1, false⟩, proxies := [("web", ⟨0, 1⟩)],
           closed := false, serverUDPPort := 7001, heapNext := 1 } : Manager Nat Nat)
        "missing" "" "" =
      (({ sendCh := ⟨[], 1, false⟩, proxies := [("web", ⟨0, 1⟩)],
          closed := false, serverUDPPort := 7001, heapNext := 1 } : Manager Nat Nat),
        some (GoError.errorf "proxy [missing] not found"), []) :=
  StartProxy_not_registered (fun _ _ _ => none)
    ({ sendCh := ⟨[], 1, false⟩, proxies := [("web", ⟨0, 1⟩)],
       closed := false, serverUDPPort := 7001, heapNext := 1 } : Manager Nat Nat)
    "missing" "" "" (by decide)

/-- C8: `StartProxy` on a registered name calls `SetRunningStatus` once, on the
instance registered under that name, with the arguments it was given, returns
what that call returns and leaves the manager, hence the registry, as it
was. -/
theorem StartProxy_registered {Cfg Msg : Type}
    (SetRunningStatus : Wrapper Cfg → String → String → Option GoError)
    (pm : Manager Cfg Msg) (name remoteAddr serverRespErr : String) (pxy : Wrapper Cfg)
    (h : mapGet name pm.proxies = some pxy) :
    StartProxy SetRunningStatus pm name remoteAddr serverRespErr =
      (pm, SetRunningStatus pxy remoteAddr serverRespErr,
        [Action.SetRunningStatus pxy.ptr remoteAddr serverRespErr]) := by
  unfold StartProxy
  rw [h]
  cases hr : SetRunningStatus pxy remoteAddr serverRespErr <;> simp [hr]

/-- Witness of C8: a start response for `web` that the instance rejects. -/
theorem StartProxy_registered_witness :
    StartProxy (fun _ _ e => if e = "" then none else some (GoError.errorf e))
        ({ sendCh := ⟨[], 1, false⟩, proxies := [("ssh", ⟨0, 1⟩), ("web", ⟨1, 2⟩)],
           closed := false, serverUDPPort := 7001, heapNext := 2 } : Manager Nat Nat)
        "web" ":8080" "port already used" =
      (({ sendCh := ⟨[], 1, false⟩, proxies := [("ssh", ⟨0, 1⟩), ("web", ⟨1, 2⟩)],
          closed := false, serverUDPPort := 7001, heapNext := 2 } : Manager Nat Nat),
        some (GoError.errorf "port already used"),
        [Action.SetRunningStatus 1 ":8080" "port already used"]) :=
  StartProxy_registered (fun _ _ e => if e = "" then none else some (GoError.errorf e))
    ({ sendCh := ⟨[], 1, false⟩, proxies := [("ssh", ⟨0, 1⟩), ("web", ⟨1, 2⟩)],
       closed := false, serverUDPPort := 7001, heapNext := 2 } : Manager Nat Nat)
    "web" ":8080" "port already used" ⟨1, 2⟩ (by decide)

/-! ## `HandleEvent` -/

/-- C9: for every event type, a payload that is neither a start intent nor a
stop intent makes `HandleEvent` return `event.ErrPayloadType` and leaves the
manager, hence the outgoing queue, as it was. -/
theorem HandleEvent_unsupported_payload {Cfg Msg : Type} (pm : Manager Cfg Msg)
    (evType : Int) (payload : Payload Msg)
    (hstart : ∀ e, payload ≠ Payload.startProxy e)
    (hclose : ∀ e, payload ≠ Payload.closeProxy e) :
    HandleEvent pm evType payload = (pm, Outcome.returned (some GoError.ErrPayloadType)) ∧
      (HandleEvent pm evType payload).1.sendCh.buf = pm.sendCh.buf := by
  cases payload with
  | startProxy e => exact absurd rfl (hstart e)
  | closeProxy e => exact absurd rfl (hclose e)
  | other t => exact ⟨rfl, rfl⟩

/-- Witness of C9: a payload of another type, with one message queued. -/
theorem HandleEvent_unsupported_payload_witness :
    HandleEvent ({ sendCh := ⟨[5], 4, false⟩, proxies := [], closed := false,
                   serverUDPPort := 7001, heapNext := 0 } : Manager Nat Nat)
        3 (Payload.other "string") =
      (({ sendCh := ⟨[5], 4, false⟩, proxies := [], closed := false,
          serverUDPPort := 7001, heapNext := 0 } : Manager Nat Nat),
        Outcome.returned (some GoError.ErrPayloadType)) :=
  (HandleEvent_unsupported_payload
    ({ sendCh := ⟨[5], 4, false⟩, proxies := [], closed := false,
       serverUDPPort := 7001, heapNext := 0 } : Manager Nat Nat)
    3 (Payload.other "string") (by intro e h; cases h) (by intro e h; cases h)).1

/-- C10: when the outgoing queue takes the send, `HandleEvent` on a start
intent carrying `m`, and on a stop intent carrying `m`, returns nil and leaves
the queue with the messages it held, in their order, followed by `m`; nothing
else of the manager changes. -/
theorem HandleEvent_enqueues_message {Cfg Msg : Type} (pm : Manager Cfg Msg)
    (evType : Int) (m : Msg) (ch : Chan Msg) (hsend : pm.sendCh.send m = SendResult.sent ch) :
    HandleEvent pm evType (Payload.startProxy (some { NewProxyMsg := m })) =
        ({ pm with sendCh := ch }, Outcome.returned none) ∧
      HandleEvent pm evType (Payload.closeProxy (some { CloseProxyMsg := m })) =
        ({ pm with sendCh := ch }, Outcome.returned none) ∧
      ch.buf = pm.sendCh.buf ++ [m] := by
  refine ⟨?_, ?_, ?_⟩
  · simp [HandleEvent, sendRecovered, hsend]
  · simp [HandleEvent, sendRecovered, hsend]
  · unfold Chan.send at hsend
    by_cases hc : pm.sendCh.closed = true
    · simp [hc] at hsend
    · by_cases hr : pm.sendCh.buf.length < pm.sendCh.cap
      · simp [hc, hr] at hsend
        rw [← hsend]
      · simp [hc, hr] at hsend

/-- Witness of C10: a queue of capacity four that holds one message. -/
theorem HandleEvent_enqueues_message_witness :
    HandleEvent ({ sendCh := ⟨[5], 4, false⟩, proxies := [], closed := false,
                   serverUDPPort := 7001, heapNext := 0 } : Manager Nat Nat)
        0 (Payload.startProxy (some { NewProxyMsg := 9 })) =
      (({ sendCh := ⟨[5, 9], 4, false⟩, proxies := [], closed := false,
          serverUDPPort := 7001, heapNext := 0 } : Manager Nat Nat),
        Outcome.returned none) :=
  (HandleEvent_enqueues_message
    ({ sendCh := ⟨[5], 4, false⟩, proxies := [], closed := false,
       serverUDPPort := 7001, heapNext := 0 } : Manager Nat Nat)
    0 9 ⟨[5, 9], 4, false⟩ (by decide)).1

/-- C11: when the outgoing queue is closed, so that the send panics,
`HandleEvent` on a start intent and on a stop intent carrying a message returns
an error instead of panicking, and leaves the manager as it was: nothing is
queued and the registry is unchanged. -/
theorem HandleEvent_send_fault {Cfg Msg : Type} (pm : Manager Cfg Msg) (evType : Int)
    (m : Msg) (hclosed : pm.sendCh.closed = true) :
    HandleEvent pm evType (Payload.startProxy (some { NewProxyMsg := m })) =
        (pm, Outcome.returned
          (some (GoError.errorf "Panic error: send on closed channel"))) ∧
      HandleEvent pm evType (Payload.closeProxy (some { CloseProxyMsg := m })) =
        (pm, Outcome.returned
          (some (GoError.errorf "Panic error: send on closed channel"))) := by
  constructor <;> simp [HandleEvent, sendRecovered, Chan.send, hclosed]

/-- Witness of C11: a closed queue that still holds one message. -/
theorem HandleEvent_send_fault_witness :
    HandleEvent ({ sendCh := ⟨[5], 4, true⟩, proxies := [("web", ⟨0, 1⟩)], closed := false,
                   serverUDPPort := 7001, heapNext := 1 } : Manager Nat Nat)
        0 (Payload.startProxy (some { NewProxyMsg := 9 })) =
      (({ sendCh := ⟨[5], 4, true⟩, proxies := [("web", ⟨0, 1⟩)], closed := false,
          serverUDPPort := 7001, heapNext := 1 } : Manager Nat Nat),
        Outcome.returned (some (GoError.errorf "Panic error: send on closed channel"))) :=
  (HandleEvent_send_fault
    ({ sendCh := ⟨[5], 4, true⟩, proxies := [("web", ⟨0, 1⟩)], closed := false,
       serverUDPPort := 7001, heapNext := 1 } : Manager Nat Nat) 0 9 rfl).1

/-- C20: `HandleEvent` gives the same manager and the same result whatever the
event type; a start intent delivered with the event type of a stop, and a stop
intent delivered with the event type of a start, are accepted: when the queue
takes the send, the call returns nil and the message carried is queued behind
the messages already there.  `EvStartProxy` and `EvCloseProxy` stand for the
two constants of package `event`, whatever their values. -/
theorem HandleEvent_ignores_evType {Cfg Msg : Type} (pm : Manager Cfg Msg)
    (t1 t2 : Int) (payload : Payload Msg) (EvStartProxy EvCloseProxy : Int) :
    HandleEvent pm t1 payload = HandleEvent pm t2 payload ∧
      (∀ (m : Msg) (ch : Chan Msg), pm.sendCh.send m = SendResult.sent ch →
        HandleEvent pm EvCloseProxy (Payload.startProxy (some { NewProxyMsg := m })) =
            ({ pm with sendCh := ch }, Outcome.returned none) ∧
          HandleEvent pm EvStartProxy (Payload.closeProxy (some { CloseProxyMsg := m })) =
            ({ pm with sendCh := ch }, Outcome.returned none) ∧
          ch.buf = pm.sendCh.buf ++ [m]) := by
  constructor
  · cases payload <;> rfl
  · intro m ch hsend
    refine ⟨?_, ?_, ?_⟩
    · simp [HandleEvent, sendRecovered, hsend]
    · simp [HandleEvent, sendRecovered, hsend]
    · unfold Chan.send at hsend
      by_cases hc : pm.sendCh.closed = true
      · simp [hc] at hsend
      · by_cases hr : pm.sendCh.buf.length < pm.sendCh.cap
        · simp [hc, hr] at hsend
          rw [← hsend]
        · simp [hc, hr] at hsend

/-- Witness of C20: a start intent delivered with the event type of a stop
(`1`), on a queue that holds one message. -/
theorem HandleEvent_ignores_evType_witness :
    HandleEvent ({ sendCh := ⟨[5], 4, false⟩, proxies := [], closed := false,
                   serverUDPPort := 7001, heapNext := 0 } : Manager Nat Nat)
        1 (Payload.startProxy (some { NewProxyMsg := 9 })) =
      (({ sendCh := ⟨[5, 9], 4, false⟩, proxies := [], closed := false,
          serverUDPPort := 7001, heapNext := 0 } : Manager Nat Nat),
        Outcome.returned none) :=
  ((HandleEvent_ignores_evType
    ({ sendCh := ⟨[5], 4, false⟩, proxies := [], closed := false,
       serverUDPPort := 7001, heapNext := 0 } : Manager Nat Nat)
    0 1 (Payload.startProxy (some { NewProxyMsg := 9 })) 0 1).2 9 ⟨[5, 9], 4, false⟩
    (by decide)).1

/-! ## `HandleWorkConn` -/

/-- C12: `HandleWorkConn` hands the connection and the message to the instance
registered under the name, and makes no other call, when the name is
registered; it closes the connection once, and makes no other call, when the
name is not registered; the manager is unchanged in both cases. -/
theorem HandleWorkConn_routes {Cfg Msg : Type} (pm : Manager Cfg Msg) (name : String)
    (workConn m : Nat) :
    (∀ pw, mapGet name pm.proxies = some pw →
        HandleWorkConn pm name workConn m = (pm, [Action.InWorkConn pw.ptr workConn m])) ∧
      (name ∉ mapKeys pm.proxies →
        HandleWorkConn pm name workConn m = (pm, [Action.connClose workConn])) := by
  constructor
  · intro pw h
    simp [HandleWorkConn, h]
  · intro h
    simp [HandleWorkConn, (mapGet_eq_none_iff name pm.proxies).mpr h]

/-- Witness of C12: `ghost` on a registry that holds `web` only. -/
theorem HandleWorkConn_routes_witness :
    HandleWorkConn ({ sendCh := ⟨[], 4, false⟩, proxies := [("web", ⟨0, 1⟩)], closed := false,
                      serverUDPPort := 7001, heapNext := 1 } : Manager Nat Nat)
        "ghost" 11 12 =
      (({ sendCh := ⟨[], 4, false⟩, proxies := [("web", ⟨0, 1⟩)], closed := false,
          serverUDPPort := 7001, heapNext := 1 } : Manager Nat Nat),
        [Action.connClose 11]) :=
  (HandleWorkConn_routes
    ({ sendCh := ⟨[], 4, false⟩, proxies := [("web", ⟨0, 1⟩)], closed := false,
       serverUDPPort := 7001, heapNext := 1 } : Manager Nat Nat) "ghost" 11 12).2
    (by decide)

/-! ## `GetAllProxyStatus` -/

theorem foldl_getStatus {Cfg St : Type} (GetStatus : Wrapper Cfg → St)
    (l : List (String × Wrapper Cfg)) (acc : List St × List (Action Cfg)) :
    l.foldl
        (fun acc e => (acc.1 ++ [GetStatus e.2], acc.2 ++ [Action.GetStatus e.2.ptr])) acc =
      (acc.1 ++ l.map (fun e => GetStatus e.2),
        acc.2 ++ l.map (fun e => Action.GetStatus e.2.ptr)) := by
  induction l generalizing acc with
  | nil => simp
  | cons e rest ih => simp [ih]

theorem replay_map_getStatus {Cfg : Type} (reg : List (String × Wrapper Cfg))
    (l : List (String × Wrapper Cfg)) :
    replay reg (l.map (fun e => (Action.GetStatus e.2.ptr : Action Cfg))) = reg := by
  induction l with
  | nil => rfl
  | cons e rest ih =>
    simp only [replay] at ih
    simp [replay, applyAction, ih]

/-- C13: `GetAllProxyStatus` returns, for the registered instances in the
order the loop visits them, what `GetStatus` returns for each: one element per
registered instance and nothing else; the only calls it makes are these
`GetStatus` calls, and none of its steps touches the registry. -/
theorem GetAllProxyStatus_one_per_instance {Cfg Msg St : Type}
    (GetStatus : Wrapper Cfg → St) (pm : Manager Cfg Msg) :
    (GetAllProxyStatus GetStatus pm).1 = pm.proxies.map (fun e => GetStatus e.2) ∧
      (GetAllProxyStatus GetStatus pm).1.length = pm.proxies.length ∧
      (GetAllProxyStatus GetStatus pm).2 =
        pm.proxies.map (fun e => Action.GetStatus e.2.ptr) ∧
      (pm.proxies = [] → (GetAllProxyStatus GetStatus pm).1 = []) ∧
      replay pm.proxies (GetAllProxyStatus GetStatus pm).2 = pm.proxies := by
  have h : GetAllProxyStatus GetStatus pm =
      (pm.proxies.map (fun e => GetStatus e.2),
        pm.proxies.map (fun e => Action.GetStatus e.2.ptr)) := by
    simp [GetAllProxyStatus, foldl_getStatus]
  rw [h]
  refine ⟨rfl, by simp, rfl, ?_, replay_map_getStatus _ _⟩
  intro he
  simp [he]

/-! ## The log records of `Reload` -/

theorem infoRecords_teardownActs {Cfg : Type} (es : List (String × Wrapper Cfg)) :
    infoRecords (teardownActs es) = [] := by
  induction es with
  | nil => rfl
  | cons e rest ih =>
    simp only [infoRecords, teardownActs] at ih
    simp [infoRecords, teardownActs, List.flatMap_cons, ih]

theorem infoRecords_creationActs {Cfg : Type} (port : Int) (next : Nat)
    (es : List (String × Cfg)) : infoRecords (creationActs port next es) = [] := by
  induction es generalizing next with
  | nil => rfl
  | cons e rest ih =>
    simp only [infoRecords] at ih
    simp [infoRecords, creationActs, ih]

theorem infoRecords_infoIfAny {Cfg : Type} (format : String) (names : List String) :
    infoRecords (infoIfAny format names : List (Action Cfg)) =
      if names.length > 0 then [(format, names)] else [] := by
  unfold infoIfAny
  by_cases h : names.length > 0 <;> simp [h, infoRecords]

/-- The log records of `Reload`. -/
theorem infoRecords_of_Reload {Cfg Msg : Type} (Compare : Cfg → Cfg → Bool)
    (pm : Manager Cfg Msg) (pxyCfgs : List (String × Cfg))
    (hreg : (mapKeys pm.proxies).Nodup) (hcfg : (mapKeys pxyCfgs).Nodup) :
    infoRecords (Reload Compare pm pxyCfgs).2 =
      (if (mapKeys (removedEntries Compare pxyCfgs pm.proxies)).length > 0 then
          [("proxy removed: %v", mapKeys (removedEntries Compare pxyCfgs pm.proxies))]
        else []) ++
      (if (mapKeys (missingEntries (keptEntries Compare pxyCfgs pm.proxies)
            pxyCfgs)).length > 0 then
          [("proxy added: %v",
            mapKeys (missingEntries (keptEntries Compare pxyCfgs pm.proxies) pxyCfgs))]
        else []) := by
  rw [Reload_eq Compare pm pxyCfgs hreg hcfg]
  have h1 := infoRecords_teardownActs (removedEntries Compare pxyCfgs pm.proxies)
  have h2 := infoRecords_creationActs pm.serverUDPPort pm.heapNext
    (missingEntries (keptEntries Compare pxyCfgs pm.proxies) pxyCfgs)
  have h3 := @infoRecords_infoIfAny Cfg "proxy removed: %v"
    (mapKeys (removedEntries Compare pxyCfgs pm.proxies))
  have h4 := @infoRecords_infoIfAny Cfg "proxy added: %v"
    (mapKeys (missingEntries (keptEntries Compare pxyCfgs pm.proxies) pxyCfgs))
  simp only [infoRecords] at h1 h2 h3 h4
  simp only [infoRecords, List.filterMap_append, h1, h2, h3, h4,
    List.nil_append, List.append_nil]

/-- C16, as the code has it: `Reload` writes a record of the removed names
when, and only when, it removed a name, and a record of the added names when,
and only when, it added one; each record lists exactly the names removed,
respectively added, by the call, and the removal record comes first.  From an
empty registry, `web` and `ssh` give the single record `added = [web, ssh]`; a
following `Reload` with `ssh` alone gives the single record
`removed = [web]`. -/
theorem Reload_log_records {Cfg Msg : Type} (Compare : Cfg → Cfg → Bool)
    (pm : Manager Cfg Msg) (pxyCfgs : List (String × Cfg))
    (hreg : (mapKeys pm.proxies).Nodup) (hcfg : (mapKeys pxyCfgs).Nodup) :
    infoRecords (Reload Compare pm pxyCfgs).2 =
        (if (deletedNames (Reload Compare pm pxyCfgs).2).length > 0 then
            [("proxy removed: %v", deletedNames (Reload Compare pm pxyCfgs).2)]
          else []) ++
        (if ((registered (Reload Compare pm pxyCfgs).2).map Prod.fst).length > 0 then
            [("proxy added: %v", (registered (Reload Compare pm pxyCfgs).2).map Prod.fst)]
          else []) ∧
      (∀ (CfgA CfgB : Cfg) (msgSendCh : Chan Msg) (serverUDPPort : Int) (heapNext : Nat),
        Compare CfgB CfgB = true →
        infoRecords (Reload Compare (NewManager msgSendCh serverUDPPort heapNext)
            [("web", CfgA), ("ssh", CfgB)]).2 = [("proxy added: %v", ["web", "ssh"])] ∧
          infoRecords (Reload Compare
            (Reload Compare (NewManager msgSendCh serverUDPPort heapNext)
              [("web", CfgA), ("ssh", CfgB)]).1 [("ssh", CfgB)]).2 =
            [("proxy removed: %v", ["web"])]) := by
  constructor
  · rw [(teardown_of_Reload Compare pm pxyCfgs hreg hcfg).2,
      (creation_of_Reload Compare pm pxyCfgs hreg hcfg).1]
    have hk := mapKeys_freshEntries pm.heapNext
      (missingEntries (keptEntries Compare pxyCfgs pm.proxies) pxyCfgs)
    simp only [mapKeys] at hk
    rw [hk, infoRecords_of_Reload Compare pm pxyCfgs hreg hcfg]
    rfl
  · intro CfgA CfgB msgSendCh serverUDPPort heapNext hB
    have hws : ¬ ("web" = "ssh") := by decide
    have hsw : ¬ ("ssh" = "web") := by decide
    simp [Reload, NewManager, reloadDelBody, reloadAddBody, mapGet, mapSet, mapDelete,
      infoIfAny, infoRecords, hB, hws, hsw]

/-- Witness of C16: `web` is replaced, `ssh` is dropped and `dns` is new. -/
theorem Reload_log_records_witness :
    infoRecords (Reload (fun a b : Nat => a == b)
        ({ sendCh := ⟨[], 1, false⟩, proxies := [("web", ⟨0, 1⟩), ("ssh", ⟨1, 2⟩)],
           closed := false, serverUDPPort := 7001, heapNext := 2 } : Manager Nat Nat)
        [("web", 3), ("dns", 4)]).2 =
      [("proxy removed: %v", ["web", "ssh"]), ("proxy added: %v", ["web", "dns"])] :=
  (Reload_log_records (fun a b : Nat => a == b)
    ({ sendCh := ⟨[], 1, false⟩, proxies := [("web", ⟨0, 1⟩), ("ssh", ⟨1, 2⟩)],
       closed := false, serverUDPPort := 7001, heapNext := 2 } : Manager Nat Nat)
    [("web", 3), ("dns", 4)] (by decide) (by decide)).1

/-- C16 fails as stated: the first `Reload` of a new manager, with `web` and
`ssh`, writes one record only, the one of the added names; no record of
removed names is written. -/
theorem Reload_log_records_counterexample :
    infoRecords (Reload (fun a b : Nat => a == b)
        (NewManager ⟨[], 4, false⟩ 7001 0 : Manager Nat Nat)
        [("web", 1), ("ssh", 2)]).2 = [("proxy added: %v", ["web", "ssh"])] ∧
      ((infoRecords (Reload (fun a b : Nat => a == b)
        (NewManager ⟨[], 4, false⟩ 7001 0 : Manager Nat Nat)
        [("web", 1), ("ssh", 2)]).2).filter
          (fun r => decide (r.1 = "proxy removed: %v"))).length = 0 := by
  decide

/-! ## The field `closed` -/

theorem closed_Call_run {Cfg Msg St : Type} (Compare : Cfg → Cfg → Bool)
    (pm : Manager Cfg Msg) (c : Call Cfg Msg St) : (c.run Compare pm).1.closed = pm.closed := by
  cases c with
  | Reload pxyCfgs => rfl
  | Close => rfl
  | StartProxy f name remoteAddr serverRespErr =>
    simp only [Call.run, StartProxy]
    split
    · rfl
    · split <;> rfl
  | HandleWorkConn name workConn m =>
    simp only [Call.run, HandleWorkConn]
    split <;> rfl
  | HandleEvent evType payload =>
    simp only [Call.run]
    rcases payload with (_ | e) | (_ | e) | t
    · rfl
    · simp only [HandleEvent, sendRecovered]
      split <;> rfl
    · rfl
    · simp only [HandleEvent, sendRecovered]
      split <;> rfl
    · rfl
  | GetAllProxyStatus g => rfl

theorem closed_runCalls {Cfg Msg St : Type} (Compare : Cfg → Cfg → Bool)
    (calls : List (Call Cfg Msg St)) (start : Manager Cfg Msg × List (Action Cfg)) :
    (runCalls Compare start calls).1.closed = start.1.closed := by
  induction calls generalizing start with
  | nil => rfl
  | cons c rest ih =>
    simp only [runCalls, List.foldl_cons]
    have := ih ((c.run Compare start.1).1, start.2 ++ (c.run Compare start.1).2)
    simp only [runCalls] at this
    rw [this]
    exact closed_Call_run Compare start.1 c

theorem Reload_after_Close {Cfg Msg : Type} (Compare : Cfg → Cfg → Bool)
    (pm : Manager Cfg Msg) (pxyCfgs : List (String × Cfg)) (hcfg : (mapKeys pxyCfgs).Nodup) :
    Reload Compare (Close pm).1 pxyCfgs =
      ({ pm with proxies := freshEntries pm.heapNext pxyCfgs
                 heapNext := pm.heapNext + pxyCfgs.length },
        creationActs pm.serverUDPPort pm.heapNext pxyCfgs ++
          infoIfAny "proxy added: %v" (mapKeys pxyCfgs)) := by
  have hreg : (mapKeys (Close pm).1.proxies).Nodup := by simp [Close, mapKeys]
  rw [Reload_eq Compare (Close pm).1 pxyCfgs hreg hcfg]
  have h1 : (Close pm).1.proxies = [] := rfl
  have h2 : missingEntries ([] : List (String × Wrapper Cfg)) pxyCfgs = pxyCfgs := by
    simp [missingEntries, mapGet]
  simp only [h1, keptEntries, removedEntries, List.filter_nil, h2, teardownActs,
    List.flatMap_nil, mapKeys, List.map_nil, infoIfAny, List.length_nil, List.nil_append]
  simp [Close]

/-- C17: no call writes the field `closed`: it is `false` in a new manager and
after any sequence of calls on it, `Close` included; no call reads it: with the
field set to any value, `Reload`, `Close`, `StartProxy`, `HandleWorkConn`,
`HandleEvent` and `GetAllProxyStatus` record the same steps, return the same
values and leave the same manager but for that field.  So `Reload` after
`Close` registers the names of the desired set, in its order, each with a new
instance that is started. -/
theorem closed_flag_is_dead {Cfg Msg St : Type} (Compare : Cfg → Cfg → Bool)
    (pm : Manager Cfg Msg) (pxyCfgs : List (String × Cfg)) (hcfg : (mapKeys pxyCfgs).Nodup) :
    (∀ (msgSendCh : Chan Msg) (serverUDPPort : Int) (heapNext : Nat)
        (calls : List (Call Cfg Msg St)),
        (NewManager msgSendCh serverUDPPort heapNext : Manager Cfg Msg).closed = false ∧
          (runCalls Compare (NewManager msgSendCh serverUDPPort heapNext, []) calls).1.closed =
            false) ∧
      (Close pm).1.closed = pm.closed ∧
      (∀ b : Bool,
        Reload Compare { pm with closed := b } pxyCfgs =
            ({ (Reload Compare pm pxyCfgs).1 with closed := b }, (Reload Compare pm pxyCfgs).2) ∧
          Close { pm with closed := b } = ({ (Close pm).1 with closed := b }, (Close pm).2) ∧
          (∀ f name remoteAddr serverRespErr,
            StartProxy f { pm with closed := b } name remoteAddr serverRespErr =
              ({ (StartProxy f pm name remoteAddr serverRespErr).1 with closed := b },
                (StartProxy f pm name remoteAddr serverRespErr).2)) ∧
          (∀ name workConn m,
            HandleWorkConn { pm with closed := b } name workConn m =
              ({ (HandleWorkConn pm name workConn m).1 with closed := b },
                (HandleWorkConn pm name workConn m).2)) ∧
          (∀ evType payload,
            HandleEvent { pm with closed := b } evType payload =
              ({ (HandleEvent pm evType payload).1 with closed := b },
                (HandleEvent pm evType payload).2)) ∧
          (∀ g : Wrapper Cfg → St,
            GetAllProxyStatus g { pm with closed := b } = GetAllProxyStatus g pm)) ∧
      (mapKeys (Reload Compare (Close pm).1 pxyCfgs).1.proxies = mapKeys pxyCfgs ∧
        startedPtrs (Reload Compare (Close pm).1 pxyCfgs).2 =
          (Reload Compare (Close pm).1 pxyCfgs).1.proxies.map (fun e => e.2.ptr) ∧
        (Reload Compare (Close pm).1 pxyCfgs).1.proxies.map (fun e => (e.1, e.2.Cfg)) =
          pxyCfgs) := by
  refine ⟨?_, rfl, ?_, ?_⟩
  · intro msgSendCh serverUDPPort heapNext calls
    refine ⟨rfl, ?_⟩
    rw [closed_runCalls]
    rfl
  · intro b
    refine ⟨rfl, rfl, ?_, ?_, ?_, fun g => rfl⟩
    · intro f name remoteAddr serverRespErr
      simp only [StartProxy]
      split
      · rfl
      · split <;> rfl
    · intro name workConn m
      simp only [HandleWorkConn]
      split <;> rfl
    · intro evType payload
      rcases payload with (_ | e) | (_ | e) | t
      · rfl
      · simp only [HandleEvent, sendRecovered]
        split <;> rfl
      · rfl
      · simp only [HandleEvent, sendRecovered]
        split <;> rfl
      · rfl
  · rw [Reload_after_Close Compare pm pxyCfgs hcfg]
    refine ⟨mapKeys_freshEntries _ _, ?_, ?_⟩
    · simp only [startedPtrs, List.filterMap_append]
      have h1 := startedPtrs_creationActs pm.serverUDPPort pm.heapNext pxyCfgs
      have h2 := (@projections_infoIfAny Cfg "proxy added: %v" (mapKeys pxyCfgs)).2.2.1
      simp only [startedPtrs] at h1 h2
      rw [h1, h2]
      simp
    · simp only
      generalize pm.heapNext = n
      induction pxyCfgs generalizing n with
      | nil => rfl
      | cons e rest ih =>
        simp only [mapKeys, List.map_cons, List.nodup_cons] at hcfg
        simp only [freshEntries, List.map_cons, List.cons.injEq, true_and]
        exact ih hcfg.2 (n + 1)

/-- Witness of C17: `Close` on a manager that holds `old`, then `Reload` with
`web` and `ssh`. -/
theorem closed_flag_is_dead_witness :
    mapKeys (Reload (fun a b : Nat => a == b)
        (Close ({ sendCh := ⟨[], 1, false⟩, proxies := [("old", ⟨0, 1⟩)],
                  closed := false, serverUDPPort := 7001, heapNext := 1 } : Manager Nat Nat)).1
        [("web", 3), ("ssh", 4)]).1.proxies = mapKeys [("web", 3), ("ssh", 4)] :=
  (@closed_flag_is_dead Nat Nat Nat (fun a b : Nat => a == b)
    ({ sendCh := ⟨[], 1, false⟩, proxies := [("old", ⟨0, 1⟩)],
       closed := false, serverUDPPort := 7001, heapNext := 1 } : Manager Nat Nat)
    [("web", 3), ("ssh", 4)] (by decide)).2.2.2.1

/-! ## `Stop` and the removal from the registry -/

theorem mem_teardownActs {Cfg : Type} {es : List (String × Wrapper Cfg)} {a : Action Cfg}
    (h : a ∈ teardownActs es) :
    ∃ e ∈ es, a = Action.delete e.1 ∨ a = Action.Stop e.2.ptr := by
  simp only [teardownActs, List.mem_flatMap] at h
  obtain ⟨e, he, ha⟩ := h
  simp only [List.mem_cons, List.mem_singleton, List.not_mem_nil, or_false] at ha
  exact ⟨e, he, ha⟩

/-- C14, as the code has it: `Close` calls `Stop` on every registered instance
before it empties the registry; `Reload` takes each marked name out of the
registry first and calls `Stop` on its instance in the very next step, so
there `Stop` does not come before the removal; no construction, registration
or `Start` of that `Reload` comes before these two steps. -/
theorem Stop_and_removal_order {Cfg Msg : Type} (Compare : Cfg → Cfg → Bool)
    (pm : Manager Cfg Msg) (pxyCfgs : List (String × Cfg)) (hwf : pm.WF)
    (hcfg : (mapKeys pxyCfgs).Nodup) :
    (∀ e ∈ pm.proxies, stopBeforeRemoval (Close pm).2 e.1 e.2.ptr = true) ∧
      (∀ e ∈ pm.proxies, marked Compare pxyCfgs e = true →
        stopBeforeRemoval (Reload Compare pm pxyCfgs).2 e.1 e.2.ptr = false ∧
          ∃ a c : List (Action Cfg),
            (Reload Compare pm pxyCfgs).2 =
              a ++ [Action.delete e.1, Action.Stop e.2.ptr] ++ c ∧
            (∀ x ∈ a, x.removes e.1 = false) ∧ (∀ x ∈ a, x.isStopOf e.2.ptr = false) ∧
            (∀ x ∈ a, x.isCreation = false)) := by
  obtain ⟨hkeys, hptrs, _⟩ := hwf
  constructor
  · intro e he
    have hacts : (Close pm).2 =
        pm.proxies.map (fun e => Action.Stop e.2.ptr) ++ [Action.clear] := by
      simp [Close, foldl_stop]
    unfold stopBeforeRemoval
    rw [hacts, List.takeWhile_append_of_pos]
    · rw [List.any_eq_true]
      refine ⟨Action.Stop e.2.ptr, ?_, by simp [Action.isStopOf]⟩
      exact List.mem_append_left _ (List.mem_map.mpr ⟨e, he, rfl⟩)
    · intro a ha
      obtain ⟨x, _, hx⟩ := List.mem_map.mp ha
      subst hx
      rfl
  · intro e he hm
    have hrem : e ∈ removedEntries Compare pxyCfgs pm.proxies :=
      (mem_removedEntries _ _ _ _).mpr ⟨he, hm⟩
    obtain ⟨s, t, hst⟩ := List.append_of_mem hrem
    have hsubk : (mapKeys (removedEntries Compare pxyCfgs pm.proxies)).Nodup :=
      List.Nodup.sublist (List.Sublist.map _ (List.filter_sublist _)) hkeys
    have hsubp : ((removedEntries Compare pxyCfgs pm.proxies).map (fun x => x.2.ptr)).Nodup :=
      List.Nodup.sublist (List.Sublist.map _ (List.filter_sublist _)) hptrs
    rw [hst] at hsubk hsubp
    simp only [mapKeys, List.map_append, List.map_cons] at hsubk hsubp
    have hk : ∀ x ∈ s, x.1 ≠ e.1 := by
      intro x hx q
      have h1 := (List.nodup_append.mp hsubk).2.2
      exact h1 (List.mem_map.mpr ⟨x, hx, q⟩) (List.mem_cons_self _ _)
    have hp : ∀ x ∈ s, x.2.ptr ≠ e.2.ptr := by
      intro x hx q
      have h1 := (List.nodup_append.mp hsubp).2.2
      exact h1 (List.mem_map.mpr ⟨x, hx, q⟩) (List.mem_cons_self _ _)
    have hacts : (Reload Compare pm pxyCfgs).2 =
        teardownActs s ++ [Action.delete e.1, Action.Stop e.2.ptr] ++
          (teardownActs t ++
            infoIfAny "proxy removed: %v"
              (mapKeys (removedEntries Compare pxyCfgs pm.proxies)) ++
            creationActs pm.serverUDPPort pm.heapNext
              (missingEntries (keptEntries Compare pxyCfgs pm.proxies) pxyCfgs) ++
            infoIfAny "proxy added: %v"
              (mapKeys (missingEntries (keptEntries Compare pxyCfgs pm.proxies) pxyCfgs))) := by
      rw [Reload_eq Compare pm pxyCfgs hkeys hcfg]
      simp only
      have h1 : teardownActs (removedEntries Compare pxyCfgs pm.proxies) =
          teardownActs s ++ [Action.delete e.1, Action.Stop e.2.ptr] ++ teardownActs t := by
        rw [hst]
        simp [teardownActs, List.flatMap_append, List.flatMap_cons]
      rw [h1]
      simp only [List.append_assoc]
    have hrm : ∀ x ∈ teardownActs s, x.removes e.1 = false := by
      intro x hx
      obtain ⟨y, hy, hxy | hxy⟩ := mem_teardownActs hx
      · subst hxy
        simp [Action.removes, hk y hy]
      · subst hxy
        rfl
    have hst2 : ∀ x ∈ teardownActs s, x.isStopOf e.2.ptr = false := by
      intro x hx
      obtain ⟨y, hy, hxy | hxy⟩ := mem_teardownActs hx
      · subst hxy
        rfl
      · subst hxy
        simp [Action.isStopOf, hp y hy]
    refine ⟨?_, teardownActs s, _, hacts, hrm, hst2, isCreation_teardownActs s⟩
    unfold stopBeforeRemoval
    rw [hacts, List.append_assoc, List.takeWhile_append_of_pos]
    · rw [List.cons_append, List.takeWhile_cons_of_neg (by simp [Action.removes]),
        List.append_nil, List.any_eq_false]
      intro x hx
      simp [hst2 x hx]
    · intro x hx
      simp [hrm x hx]

/-- Witness of C14: `web` is dropped while `ssh` stays. -/
theorem Stop_and_removal_order_witness :
    stopBeforeRemoval (Close
        ({ sendCh := ⟨[], 1, false⟩, proxies := [("web", ⟨0, 1⟩), ("ssh", ⟨1, 2⟩)],
           closed := false, serverUDPPort := 7001, heapNext := 2 } : Manager Nat Nat)).2
        "ssh" 1 = true :=
  (Stop_and_removal_order (fun a b : Nat => a == b)
    ({ sendCh := ⟨[], 1, false⟩, proxies := [("web", ⟨0, 1⟩), ("ssh", ⟨1, 2⟩)],
       closed := false, serverUDPPort := 7001, heapNext := 2 } : Manager Nat Nat)
    [("ssh", 2)] (by decide) (by decide)).1 ("ssh", ⟨1, 2⟩) (by decide)

/-- C14 fails as stated: `Reload` with `ssh` alone on a registry that holds
`web` and `ssh` deletes `web` from the registry and only then calls `Stop` on
its instance. -/
theorem Stop_and_removal_order_counterexample :
    (Reload (fun a b : Nat => a == b)
        ({ sendCh := ⟨[], 1, false⟩, proxies := [("web", ⟨0, 1⟩), ("ssh", ⟨1, 2⟩)],
           closed := false, serverUDPPort := 7001, heapNext := 2 } : Manager Nat Nat)
        [("ssh", 2)]).2 =
        [Action.delete "web", Action.Stop 0, Action.Info "proxy removed: %v" ["web"]] ∧
      stopBeforeRemoval (Reload (fun a b : Nat => a == b)
        ({ sendCh := ⟨[], 1, false⟩, proxies := [("web", ⟨0, 1⟩), ("ssh", ⟨1, 2⟩)],
           closed := false, serverUDPPort := 7001, heapNext := 2 } : Manager Nat Nat)
        [("ssh", 2)]).2 "web" 0 = false := by
  decide

/-! ## The order in which the loops of `Reload` visit the maps -/

theorem mapGet_perm {β : Type} {m₁ m₂ : List (String × β)} (h : m₁.Perm m₂)
    (hn : (mapKeys m₁).Nodup) (name : String) : mapGet name m₁ = mapGet name m₂ := by
  have hn2 : (mapKeys m₂).Nodup := (List.Perm.nodup_iff (List.Perm.map _ h)).mp hn
  cases hg : mapGet name m₁ with
  | none =>
    have h1 := (mapGet_eq_none_iff name m₁).mp hg
    have h2 : name ∉ mapKeys m₂ := fun q =>
      h1 ((List.Perm.mem_iff (List.Perm.map _ h)).mpr q)
    exact ((mapGet_eq_none_iff name m₂).mpr h2).symm
  | some v =>
    exact (mapGet_of_mem hn2 ((List.Perm.mem_iff h).mp (mem_of_mapGet hg))).symm

theorem marked_perm {Cfg : Type} (Compare : Cfg → Cfg → Bool)
    {pxyCfgs pxyCfgs' : List (String × Cfg)} (h : pxyCfgs.Perm pxyCfgs')
    (hn : (mapKeys pxyCfgs).Nodup) :
    marked Compare pxyCfgs = marked Compare pxyCfgs' := by
  funext e
  unfold marked
  rw [mapGet_perm h hn]

theorem removedEntries_perm {Cfg : Type} (Compare : Cfg → Cfg → Bool)
    {pxyCfgs pxyCfgs' : List (String × Cfg)} (hd : pxyCfgs.Perm pxyCfgs')
    (hn : (mapKeys pxyCfgs).Nodup) {reg reg' : List (String × Wrapper Cfg)}
    (hp : reg.Perm reg') :
    (removedEntries Compare pxyCfgs reg).Perm (removedEntries Compare pxyCfgs' reg') := by
  unfold removedEntries
  rw [marked_perm Compare hd hn]
  exact List.Perm.filter _ hp

theorem keptEntries_perm {Cfg : Type} (Compare : Cfg → Cfg → Bool)
    {pxyCfgs pxyCfgs' : List (String × Cfg)} (hd : pxyCfgs.Perm pxyCfgs')
    (hn : (mapKeys pxyCfgs).Nodup) {reg reg' : List (String × Wrapper Cfg)}
    (hp : reg.Perm reg') :
    (keptEntries Compare pxyCfgs reg).Perm (keptEntries Compare pxyCfgs' reg') := by
  unfold keptEntries
  rw [marked_perm Compare hd hn]
  exact List.Perm.filter _ hp

theorem missingEntries_perm {Cfg : Type} {reg reg' : List (String × Wrapper Cfg)}
    (hp : reg.Perm reg') (hn : (mapKeys reg).Nodup) {pxyCfgs pxyCfgs' : List (String × Cfg)}
    (hd : pxyCfgs.Perm pxyCfgs') :
    (missingEntries reg pxyCfgs).Perm (missingEntries reg' pxyCfgs') := by
  unfold missingEntries
  have : (fun e : String × Cfg => (mapGet e.1 reg).isNone) =
      (fun e : String × Cfg => (mapGet e.1 reg').isNone) := by
    funext e
    rw [mapGet_perm hp hn]
  rw [this]
  exact List.Perm.filter _ hd

theorem freshEntries_forget_ptr {Cfg : Type} (next : Nat) (es : List (String × Cfg)) :
    (freshEntries next es).map (fun e => (e.1, e.2.Cfg)) = es := by
  induction es generalizing next with
  | nil => rfl
  | cons e rest ih => simp [freshEntries, ih]

/-- C19: when the two loops of `Reload` visit the registry and the desired set
in another order, the same instances are stopped and the same names deleted,
the same names are registered with the same configurations, the registry left
has the same names, every kept name has the same instance, as many instances
are allocated, and the log records are the same up to the order of the names
inside each. -/
theorem Reload_order_independent {Cfg Msg : Type} (Compare : Cfg → Cfg → Bool)
    (pm : Manager Cfg Msg) (proxies' : List (String × Wrapper Cfg))
    (pxyCfgs pxyCfgs' : List (String × Cfg))
    (hreg : (mapKeys pm.proxies).Nodup) (hcfg : (mapKeys pxyCfgs).Nodup)
    (hp : pm.proxies.Perm proxies') (hd : pxyCfgs.Perm pxyCfgs') :
    (stoppedPtrs (Reload Compare pm pxyCfgs).2).Perm
        (stoppedPtrs (Reload Compare { pm with proxies := proxies' } pxyCfgs').2) ∧
      (deletedNames (Reload Compare pm pxyCfgs).2).Perm
        (deletedNames (Reload Compare { pm with proxies := proxies' } pxyCfgs').2) ∧
      ((registered (Reload Compare pm pxyCfgs).2).map (fun e => (e.1, e.2.Cfg))).Perm
        ((registered (Reload Compare { pm with proxies := proxies' } pxyCfgs').2).map
          (fun e => (e.1, e.2.Cfg))) ∧
      (mapKeys (Reload Compare pm pxyCfgs).1.proxies).Perm
        (mapKeys (Reload Compare { pm with proxies := proxies' } pxyCfgs').1.proxies) ∧
      (∀ name pxy, mapGet name pm.proxies = some pxy →
        marked Compare pxyCfgs (name, pxy) = false →
        mapGet name (Reload Compare pm pxyCfgs).1.proxies = some pxy ∧
          mapGet name (Reload Compare { pm with proxies := proxies' } pxyCfgs').1.proxies =
            some pxy) ∧
      (Reload Compare pm pxyCfgs).1.heapNext =
        (Reload Compare { pm with proxies := proxies' } pxyCfgs').1.heapNext ∧
      List.Forall₂ (fun r r' => r.1 = r'.1 ∧ r.2.Perm r'.2)
        (infoRecords (Reload Compare pm pxyCfgs).2)
        (infoRecords (Reload Compare { pm with proxies := proxies' } pxyCfgs').2) := by
  have hreg' : (mapKeys proxies').Nodup := (List.Perm.nodup_iff (List.Perm.map _ hp)).mp hreg
  have hcfg' : (mapKeys pxyCfgs').Nodup := (List.Perm.nodup_iff (List.Perm.map _ hd)).mp hcfg
  have hrem := removedEntries_perm Compare hd hcfg hp
  have hkept := keptEntries_perm Compare hd hcfg hp
  have hmis := missingEntries_perm hkept (nodup_mapKeys_keptEntries Compare pxyCfgs hreg) hd
  have ht := teardown_of_Reload Compare pm pxyCfgs hreg hcfg
  have ht' := teardown_of_Reload Compare { pm with proxies := proxies' } pxyCfgs' hreg' hcfg'
  have hc := creation_of_Reload Compare pm pxyCfgs hreg hcfg
  have hc' := creation_of_Reload Compare { pm with proxies := proxies' } pxyCfgs' hreg' hcfg'
  refine ⟨?_, ?_, ?_, ?_, ?_, ?_, ?_⟩
  · rw [ht.1, ht'.1]
    exact List.Perm.map _ hrem
  · rw [ht.2, ht'.2]
    exact List.Perm.map _ hrem
  · rw [hc.1, hc'.1, freshEntries_forget_ptr, freshEntries_forget_ptr]
    exact hmis
  · rw [Reload_eq Compare pm pxyCfgs hreg hcfg,
      Reload_eq Compare { pm with proxies := proxies' } pxyCfgs' hreg' hcfg']
    simp only [mapKeys, List.map_append]
    have h1 := mapKeys_freshEntries pm.heapNext
      (missingEntries (keptEntries Compare pxyCfgs pm.proxies) pxyCfgs)
    have h2 := mapKeys_freshEntries pm.heapNext
      (missingEntries (keptEntries Compare pxyCfgs' proxies') pxyCfgs')
    simp only [mapKeys] at h1 h2
    rw [h1, h2]
    exact List.Perm.append (List.Perm.map _ hkept) (List.Perm.map _ hmis)
  · intro name pxy hget hm
    have hget' : mapGet name proxies' = some pxy := by
      rw [← mapGet_perm hp hreg]
      exact hget
    have hm' : marked Compare pxyCfgs' (name, pxy) = false := by
      rw [← marked_perm Compare hd hcfg]
      exact hm
    rw [Reload_eq Compare pm pxyCfgs hreg hcfg,
      Reload_eq Compare { pm with proxies := proxies' } pxyCfgs' hreg' hcfg']
    simp only
    rw [mapGet_append, mapGet_append,
      mapGet_keptEntries_of_unmarked Compare pxyCfgs hreg hget hm,
      mapGet_keptEntries_of_unmarked Compare pxyCfgs' hreg' hget' hm']
    exact ⟨rfl, rfl⟩
  · rw [Reload_eq Compare pm pxyCfgs hreg hcfg,
      Reload_eq Compare { pm with proxies := proxies' } pxyCfgs' hreg' hcfg']
    simp only
    rw [List.Perm.length_eq hmis]
  · rw [infoRecords_of_Reload Compare pm pxyCfgs hreg hcfg,
      infoRecords_of_Reload Compare { pm with proxies := proxies' } pxyCfgs' hreg' hcfg']
    simp only
    have hl1 := List.Perm.length_eq (List.Perm.map Prod.fst hrem)
    have hl2 := List.Perm.length_eq (List.Perm.map Prod.fst hmis)
    simp only [mapKeys]
    rw [← hl1, ← hl2]
    by_cases ha : (List.map Prod.fst (removedEntries Compare pxyCfgs pm.proxies)).length > 0
    · by_cases hb : (List.map Prod.fst
          (missingEntries (keptEntries Compare pxyCfgs pm.proxies) pxyCfgs)).length > 0
      · simp only [ha, hb, if_true, List.singleton_append]
        exact List.Forall₂.cons ⟨rfl, List.Perm.map _ hrem⟩
          (List.Forall₂.cons ⟨rfl, List.Perm.map _ hmis⟩ List.Forall₂.nil)
      · simp only [ha, hb, if_true, if_false, List.append_nil]
        exact List.Forall₂.cons ⟨rfl, List.Perm.map _ hrem⟩ List.Forall₂.nil
    · by_cases hb : (List.map Prod.fst
          (missingEntries (keptEntries Compare pxyCfgs pm.proxies) pxyCfgs)).length > 0
      · simp only [ha, hb, if_true, if_false, List.nil_append]
        exact List.Forall₂.cons ⟨rfl, List.Perm.map _ hmis⟩ List.Forall₂.nil
      · simp only [ha, hb, if_false, List.append_nil]
        exact List.Forall₂.nil

/-- Witness of C19: both maps visited in the opposite order. -/
theorem Reload_order_independent_witness :
    (stoppedPtrs (Reload (fun a b : Nat => a == b)
        ({ sendCh := ⟨[], 1, false⟩, proxies := [("web", ⟨0, 1⟩), ("ssh", ⟨1, 2⟩)],
           closed := false, serverUDPPort := 7001, heapNext := 2 } : Manager Nat Nat)
        [("dns", 3), ("ftp", 4)]).2).Perm
      (stoppedPtrs (Reload (fun a b : Nat => a == b)
        ({ sendCh := ⟨[], 1, false⟩, proxies := [("ssh", ⟨1, 2⟩), ("web", ⟨0, 1⟩)],
           closed := false, serverUDPPort := 7001, heapNext := 2 } : Manager Nat Nat)
        [("ftp", 4), ("dns", 3)]).2) :=
  (Reload_order_independent (fun a b : Nat => a == b)
    ({ sendCh := ⟨[], 1, false⟩, proxies := [("web", ⟨0, 1⟩), ("ssh", ⟨1, 2⟩)],
       closed := false, serverUDPPort := 7001, heapNext := 2 } : Manager Nat Nat)
    [("ssh", ⟨1, 2⟩), ("web", ⟨0, 1⟩)] [("dns", 3), ("ftp", 4)] [("ftp", 4), ("dns", 3)]
    (by decide) (by decide) (List.Perm.swap _ _ _) (List.Perm.swap _ _ _)).1

/-! ## `Stop` over the life of a manager -/

theorem stoppedPtrs_append {Cfg : Type} (xs ys : List (Action Cfg)) :
    stoppedPtrs (xs ++ ys) = stoppedPtrs xs ++ stoppedPtrs ys := by
  simp [stoppedPtrs, List.filterMap_append]

theorem constructed_append {Cfg : Type} (xs ys : List (Action Cfg)) :
    constructed (xs ++ ys) = constructed xs ++ constructed ys := by
  simp [constructed, List.filterMap_append]

theorem StopInvariant_NewManager {Cfg Msg : Type} (msgSendCh : Chan Msg)
    (serverUDPPort : Int) (heapNext : Nat) :
    StopInvariant ((NewManager msgSendCh serverUDPPort heapNext : Manager Cfg Msg), []) := by
  refine ⟨NewManager_WF _ _ _, ?_, ?_, ?_, ?_, ?_⟩ <;>
    simp [stoppedPtrs, constructed, NewManager]

theorem StopInvariant_of_quiet {Cfg Msg : Type} (s : Manager Cfg Msg × List (Action Cfg))
    (pm : Manager Cfg Msg) (acts : List (Action Cfg)) (hinv : StopInvariant s)
    (hreg : pm.proxies = s.1.proxies) (hheap : pm.heapNext = s.1.heapNext)
    (hstop : stoppedPtrs acts = []) : StopInvariant (pm, s.2 ++ acts) := by
  obtain ⟨hwf, h2, h3, h4, h5, h6⟩ := hinv
  have hs : stoppedPtrs (s.2 ++ acts) = stoppedPtrs s.2 := by
    rw [stoppedPtrs_append, hstop, List.append_nil]
  refine ⟨?_, ?_, ?_, ?_, ?_, ?_⟩
  · unfold Manager.WF
    simp only
    rw [hreg, hheap]
    exact hwf
  · simp only
    rw [hs]
    exact h2
  · simp only
    rw [hs, hheap]
    exact h3
  · simp only
    rw [hs, hreg]
    exact h4
  · simp only
    rw [hreg, constructed_append]
    intro e he
    exact List.mem_append_left _ (h5 e he)
  · simp only
    rw [hs, constructed_append, List.map_append]
    intro q hq
    exact List.mem_append_left _ (h6 q hq)

theorem StopInvariant_Close {Cfg Msg : Type} (s : Manager Cfg Msg × List (Action Cfg))
    (hinv : StopInvariant s) : StopInvariant ((Close s.1).1, s.2 ++ (Close s.1).2) := by
  obtain ⟨hwf, h2, h3, h4, h5, h6⟩ := hinv
  obtain ⟨_, hptrs, hlt⟩ := hwf
  have hacts : (Close s.1).2 =
      s.1.proxies.map (fun e => Action.Stop e.2.ptr) ++ [Action.clear] := by
    simp [Close, foldl_stop]
  have hs : stoppedPtrs (s.2 ++ (Close s.1).2) =
      stoppedPtrs s.2 ++ s.1.proxies.map (fun e => e.2.ptr) := by
    rw [stoppedPtrs_append, hacts, stoppedPtrs_append, stoppedPtrs_map_stop]
    simp [stoppedPtrs]
  have hc : constructed (s.2 ++ (Close s.1).2) = constructed s.2 := by
    rw [constructed_append, hacts, constructed_append]
    have : constructed (s.1.proxies.map (fun e => (Action.Stop e.2.ptr : Action Cfg))) = [] := by
      simp only [constructed, List.filterMap_eq_nil_iff]
      intro a ha
      obtain ⟨x, _, hx⟩ := List.mem_map.mp ha
      subst hx
      rfl
    rw [this]
    simp [constructed]
  refine ⟨Close_WF s.1, ?_, ?_, ?_, ?_, ?_⟩
  · simp only
    rw [hs]
    refine List.Nodup.append h2 hptrs ?_
    intro q hq1 hq2
    obtain ⟨e, he, hq⟩ := List.mem_map.mp hq2
    rw [← hq] at hq1
    exact h4 e he hq1
  · simp only
    rw [hs]
    intro q hq
    rcases List.mem_append.mp hq with hq | hq
    · exact h3 q hq
    · obtain ⟨e, he, hq⟩ := List.mem_map.mp hq
      rw [← hq]
      exact hlt e he
  · intro e he
    simp [Close] at he
  · intro e he
    simp [Close] at he
  · simp only
    rw [hs, hc]
    intro q hq
    rcases List.mem_append.mp hq with hq | hq
    · exact h6 q hq
    · obtain ⟨e, he, hq⟩ := List.mem_map.mp hq
      rw [← hq]
      exact List.mem_map.mpr ⟨e.2, h5 e he, rfl⟩

theorem StopInvariant_Reload {Cfg Msg : Type} (Compare : Cfg → Cfg → Bool)
    (s : Manager Cfg Msg × List (Action Cfg)) (pxyCfgs : List (String × Cfg))
    (hinv : StopInvariant s) (hcfg : (mapKeys pxyCfgs).Nodup) :
    StopInvariant ((Reload Compare s.1 pxyCfgs).1, s.2 ++ (Reload Compare s.1 pxyCfgs).2) := by
  obtain ⟨hwf, h2, h3, h4, h5, h6⟩ := hinv
  have hwf' := Reload_WF Compare s.1 pxyCfgs hwf hcfg
  obtain ⟨hkeys, hptrs, hlt⟩ := hwf
  have ht := (teardown_of_Reload Compare s.1 pxyCfgs hkeys hcfg).1
  have hc := creation_of_Reload Compare s.1 pxyCfgs hkeys hcfg
  have hs : stoppedPtrs (s.2 ++ (Reload Compare s.1 pxyCfgs).2) =
      stoppedPtrs s.2 ++ (removedEntries Compare pxyCfgs s.1.proxies).map (fun e => e.2.ptr) := by
    rw [stoppedPtrs_append, ht]
  have hcon : constructed (s.2 ++ (Reload Compare s.1 pxyCfgs).2) =
      constructed s.2 ++
        (freshEntries s.1.heapNext
          (missingEntries (keptEntries Compare pxyCfgs s.1.proxies) pxyCfgs)).map Prod.snd := by
    rw [constructed_append, hc.2.2, hc.1]
  have hreg' : (Reload Compare s.1 pxyCfgs).1.proxies =
      keptEntries Compare pxyCfgs s.1.proxies ++
        freshEntries s.1.heapNext
          (missingEntries (keptEntries Compare pxyCfgs s.1.proxies) pxyCfgs) := by
    rw [Reload_eq Compare s.1 pxyCfgs hkeys hcfg]
  have hheap' : s.1.heapNext ≤ (Reload Compare s.1 pxyCfgs).1.heapNext := by
    rw [Reload_eq Compare s.1 pxyCfgs hkeys hcfg]
    exact Nat.le_add_right _ _
  have hremlt : ∀ q ∈ (removedEntries Compare pxyCfgs s.1.proxies).map (fun e => e.2.ptr),
      q < s.1.heapNext := by
    intro q hq
    obtain ⟨e, he, hq⟩ := List.mem_map.mp hq
    rw [← hq]
    exact hlt e ((mem_removedEntries _ _ _ e).mp he).1
  refine ⟨hwf', ?_, ?_, ?_, ?_, ?_⟩
  · simp only
    rw [hs]
    refine List.Nodup.append h2
      (List.Nodup.sublist (List.Sublist.map _ (List.filter_sublist _)) hptrs) ?_
    intro q hq1 hq2
    obtain ⟨e, he, hq⟩ := List.mem_map.mp hq2
    rw [← hq] at hq1
    exact h4 e ((mem_removedEntries _ _ _ e).mp he).1 hq1
  · simp only
    rw [hs]
    intro q hq
    rcases List.mem_append.mp hq with hq | hq
    · exact Nat.lt_of_lt_of_le (h3 q hq) hheap'
    · exact Nat.lt_of_lt_of_le (hremlt q hq) hheap'
  · simp only
    rw [hs, hreg']
    intro e he hq
    rcases List.mem_append.mp he with he | he
    · have he2 := (mem_keptEntries _ _ _ e).mp he
      rcases List.mem_append.mp hq with hq | hq
      · exact h4 e he2.1 hq
      · obtain ⟨x, hx, hxe⟩ := List.mem_map.mp hq
        have hx2 := (mem_removedEntries _ _ _ x).mp hx
        have : x = e := List.inj_on_of_nodup_map hptrs hx2.1 he2.1 hxe
        rw [this, he2.2] at hx2
        exact Bool.noConfusion hx2.2
    · have hge := (mem_freshEntries he).2.1
      rcases List.mem_append.mp hq with hq | hq
      · have := h3 _ hq
        omega
      · have := hremlt _ hq
        omega
  · simp only
    rw [hcon, hreg']
    intro e he
    rcases List.mem_append.mp he with he | he
    · exact List.mem_append_left _ (h5 e ((mem_keptEntries _ _ _ e).mp he).1)
    · exact List.mem_append_right _ (List.mem_map.mpr ⟨e, he, rfl⟩)
  · simp only
    rw [hs, hcon, List.map_append]
    intro q hq
    rcases List.mem_append.mp hq with hq | hq
    · exact List.mem_append_left _ (h6 q hq)
    · obtain ⟨e, he, hq⟩ := List.mem_map.mp hq
      rw [← hq]
      exact List.mem_append_left _
        (List.mem_map.mpr ⟨e.2, h5 e ((mem_removedEntries _ _ _ e).mp he).1, rfl⟩)

theorem StopInvariant_Call_run {Cfg Msg St : Type} (Compare : Cfg → Cfg → Bool)
    (s : Manager Cfg Msg × List (Action Cfg)) (c : Call Cfg Msg St)
    (hinv : StopInvariant s) (hc : c.desiredIsMap = true) :
    StopInvariant ((c.run Compare s.1).1, s.2 ++ (c.run Compare s.1).2) := by
  cases c with
  | Reload pxyCfgs =>
    exact StopInvariant_Reload Compare s pxyCfgs hinv (by simpa [Call.desiredIsMap] using hc)
  | Close => exact StopInvariant_Close s hinv
  | StartProxy f name remoteAddr serverRespErr =>
    apply StopInvariant_of_quiet s _ _ hinv
    · simp only [Call.run, StartProxy]
      split
      · rfl
      · split <;> rfl
    · simp only [Call.run, StartProxy]
      split
      · rfl
      · split <;> rfl
    · simp only [Call.run, StartProxy]
      split
      · rfl
      · split <;> rfl
  | HandleWorkConn name workConn m =>
    apply StopInvariant_of_quiet s _ _ hinv
    · simp only [Call.run, HandleWorkConn]
      split <;> rfl
    · simp only [Call.run, HandleWorkConn]
      split <;> rfl
    · simp only [Call.run, HandleWorkConn]
      split <;> rfl
  | HandleEvent evType payload =>
    apply StopInvariant_of_quiet s _ _ hinv
    · rcases payload with (_ | e) | (_ | e) | t
      · rfl
      · simp only [Call.run, HandleEvent, sendRecovered]
        split <;> rfl
      · rfl
      · simp only [Call.run, HandleEvent, sendRecovered]
        split <;> rfl
      · rfl
    · rcases payload with (_ | e) | (_ | e) | t
      · rfl
      · simp only [Call.run, HandleEvent, sendRecovered]
        split <;> rfl
      · rfl
      · simp only [Call.run, HandleEvent, sendRecovered]
        split <;> rfl
      · rfl
    · rfl
  | GetAllProxyStatus g =>
    apply StopInvariant_of_quiet s _ _ hinv rfl rfl
    simp only [Call.run, GetAllProxyStatus, foldl_getStatus, List.nil_append, stoppedPtrs,
      List.filterMap_eq_nil_iff]
    intro a ha
    obtain ⟨x, _, hx⟩ := List.mem_map.mp ha
    subst hx
    rfl

theorem StopInvariant_runCalls {Cfg Msg St : Type} (Compare : Cfg → Cfg → Bool)
    (calls : List (Call Cfg Msg St)) (s : Manager Cfg Msg × List (Action Cfg))
    (hinv : StopInvariant s) (hmaps : calls.all Call.desiredIsMap = true) :
    StopInvariant (runCalls Compare s calls) := by
  induction calls generalizing s with
  | nil => exact hinv
  | cons c rest ih =>
    simp only [List.all_cons, Bool.and_eq_true] at hmaps
    simp only [runCalls, List.foldl_cons]
    exact ih _ (StopInvariant_Call_run Compare s c hinv hmaps.1) hmaps.2

/-- C15: after any sequence of `Reload`, `Close`, `StartProxy`,
`HandleWorkConn`, `HandleEvent` and `GetAllProxyStatus` calls on a new manager,
`Stop` has been called at most once on each instance, only on instances the
manager constructed, and on no instance that is registered. -/
theorem Stop_at_most_once {Cfg Msg St : Type} (Compare : Cfg → Cfg → Bool)
    (msgSendCh : Chan Msg) (serverUDPPort : Int) (heapNext : Nat)
    (calls : List (Call Cfg Msg St)) (hmaps : calls.all Call.desiredIsMap = true) :
    (∀ p : Nat,
        (stoppedPtrs (runCalls Compare
          (NewManager msgSendCh serverUDPPort heapNext, []) calls).2).count p ≤ 1) ∧
      (∀ e ∈ (runCalls Compare
          (NewManager msgSendCh serverUDPPort heapNext, []) calls).1.proxies,
        e.2.ptr ∉ stoppedPtrs (runCalls Compare
          (NewManager msgSendCh serverUDPPort heapNext, []) calls).2) ∧
      (∀ p ∈ stoppedPtrs (runCalls Compare
          (NewManager msgSendCh serverUDPPort heapNext, []) calls).2,
        p ∈ (constructed (runCalls Compare
          (NewManager msgSendCh serverUDPPort heapNext, []) calls).2).map
            (fun w => w.ptr)) := by
  obtain ⟨_, h2, _, h4, _, h6⟩ := StopInvariant_runCalls Compare calls _
    (StopInvariant_NewManager msgSendCh serverUDPPort heapNext) hmaps
  exact ⟨List.nodup_iff_count_le_one.mp h2, h4, h6⟩

/-- Witness of C15: `web` and `ssh` are added, `web` is replaced and `ssh`
dropped, a start response arrives for `web`, then the manager is closed. -/
theorem Stop_at_most_once_witness :
    (stoppedPtrs (runCalls (fun a b : Nat => a == b)
        ((NewManager ⟨[], 4, false⟩ 7001 0 : Manager Nat Nat), [])
        [(Call.Reload [("web", 1), ("ssh", 2)] : Call Nat Nat Nat),
          Call.Reload [("web", 3)], Call.StartProxy (fun _ _ _ => none) "web" ":80" "",
          Call.Close]).2).count 0 ≤ 1 :=
  (Stop_at_most_once (fun a b : Nat => a == b) ⟨[], 4, false⟩ 7001 0
    [(Call.Reload [("web", 1), ("ssh", 2)] : Call Nat Nat Nat),
      Call.Reload [("web", 3)], Call.StartProxy (fun _ _ _ => none) "web" ":80" "",
      Call.Close] (by decide)).1 0

end Frp
